import Mathlib

/-!
# Gryd rendering pipeline: a shallow embedding

This file embeds the core of the Gryd layered-gradient renderer in Lean 4 and
proves properties of it.  The embedded pieces are:

* the composition data model (`src/prototype/types/index.ts`);
* the draw-command trace semantics of `CanvasRenderer.drawFrame` /
  `IOSRenderer.drawFrame` (which layer / effect operations run, on which
  surface, in which order, and whether the frame throws);
* the pixel-level blur engine of `CanvasRenderer` (`applyGlobalBlur` with its
  edge-clamp padding, the 3-pass sliding-window box blur
  `boxBlurH_fast` / `boxBlurV_fast`) and the iOS `applySafeBlur`;
* the halftone source interpolation and pattern selection
  (`interpolateHalftoneSources`, `applyHalftoneGradient`);
* the per-pixel noise algorithms (`applyNoise`, `perlinNoise`,
  `simplexNoise`, `hash2D`);
* the export rescaling of `ExportService.exportImage`;
* the iOS canvas constraints (`getConstrainedDimensions`, `IOSRenderer.resize`).

JavaScript numbers are modelled as rationals (`ℚ`); `Math.floor` / `Math.ceil`
are the integer floor / ceiling and `Math.round x` is `⌊x + 1/2⌋`.
Host-defined behaviour that the web platform does not pin down (the float
`Math.sin`/`Math.sqrt`, the bitmap resampler behind a scaling `drawImage`, the
native `ctx.filter` blur) is passed in as an explicit function parameter, so
theorems quantify over every possible host implementation.  `Math.random` is
modelled by an explicit stream of values together with a cursor.
-/

namespace Gryd

/-! ## JavaScript numeric primitives -/

/-- JavaScript `Math.round` in JavaScript: half-up rounding, `⌊x + 1/2⌋`. -/
def jsRound (q : ℚ) : ℤ := ⌊q + 1/2⌋

/-- JavaScript `Math.floor`. -/
def jsFloor (q : ℚ) : ℤ := ⌊q⌋

/-- JavaScript `Math.ceil`. -/
def jsCeil (q : ℚ) : ℤ := ⌈q⌉

/-! ## Data model (`src/prototype/types/index.ts`)

Numeric fields are `ℚ`; string-valued colour fields stay `String`.  The
TypeScript types declare every effect block as present, and the renderers'
optional-chaining guards (`globalEffects.blur?.enabled`) coincide with plain
field access on values of the declared type, so effect blocks are embedded as
plain (non-`Option`) fields. -/

inductive BlendMode
  | normal | multiply | screen | overlay
  | softLight | hardLight | colorDodge | colorBurn
  deriving DecidableEq, Repr

structure GradientColorStop where
  id : String
  color : String
  position : ℚ
  deriving DecidableEq, Repr

structure LayerTransform where
  x : ℚ
  y : ℚ
  scale : ℚ
  rotation : ℚ
  deriving DecidableEq, Repr

structure BlurEffect where
  enabled : Bool
  radius : ℚ
  deriving DecidableEq, Repr

structure NoiseEffect where
  enabled : Bool
  intensity : ℚ
  scale : ℚ
  deriving DecidableEq, Repr

structure GlowEffect where
  enabled : Bool
  intensity : ℚ
  spread : ℚ
  deriving DecidableEq, Repr

structure LayerEffects where
  blur : BlurEffect
  noise : NoiseEffect
  glow : GlowEffect
  deriving DecidableEq, Repr

inductive GradientType
  | linear | radial | mesh
  deriving DecidableEq, Repr

structure GradientLayer where
  id : String
  name : String
  type : GradientType
  visible : Bool
  opacity : ℚ
  colors : List GradientColorStop
  transform : LayerTransform
  blendMode : BlendMode
  effects : LayerEffects
  deriving DecidableEq, Repr

structure GrainEffect where
  enabled : Bool
  amount : ℚ
  size : ℚ
  deriving DecidableEq, Repr

structure GlobalBlurEffect where
  enabled : Bool
  strength : ℚ
  deriving DecidableEq, Repr

inductive NoiseType
  | perlin | simplex | random
  deriving DecidableEq, Repr

structure GlobalNoiseEffect where
  enabled : Bool
  intensity : ℚ
  scale : ℚ
  type : NoiseType
  deriving DecidableEq, Repr

inductive HalftonePatternType
  | stochastic | ordered
  deriving DecidableEq, Repr

inductive LevelBucket
  | low | medium | high
  deriving DecidableEq, Repr

structure HalftoneSource where
  dotSizeMin : ℚ
  dotSizeMax : ℚ
  dotDensity : LevelBucket
  contrast : LevelBucket
  noiseLevel : LevelBucket
  patternType : HalftonePatternType
  baseColor : String
  inkColor : String
  deriving DecidableEq, Repr

inductive HalftoneBlendMode
  | multiply | overlay | softLight | hardLight
  deriving DecidableEq, Repr

structure HalftoneGradientEffect where
  enabled : Bool
  gradientPosition : ℚ
  sourceA : HalftoneSource
  sourceB : HalftoneSource
  blendMode : HalftoneBlendMode
  dotSizeMultiplier : ℚ
  contrastIntensity : ℚ
  noiseBlend : ℚ
  opacity : ℚ
  deriving DecidableEq, Repr

inductive MetalLightingStyle
  | softDiagonal | strongHorizontal
  deriving DecidableEq, Repr

inductive MetalBlendMode
  | overlay | softLight | hardLight | luminosity
  deriving DecidableEq, Repr

structure MacroShading where
  intensity : ℚ
  style : MetalLightingStyle
  deriving DecidableEq, Repr

structure CorrugatedMetalEffect where
  enabled : Bool
  distortion : ℚ
  macroShading : MacroShading
  microContrast : ℚ
  density : ℚ
  angle : ℚ
  opacity : ℚ
  blendMode : MetalBlendMode
  deriving DecidableEq, Repr

structure TextureEffect where
  enabled : Bool
  presetId : String
  opacity : ℚ
  blendMode : BlendMode
  scale : ℚ
  deriving DecidableEq, Repr

structure GlobalEffects where
  blur : GlobalBlurEffect
  grain : GrainEffect
  noise : GlobalNoiseEffect
  halftone : HalftoneGradientEffect
  metal : CorrugatedMetalEffect
  texture : TextureEffect
  deriving DecidableEq, Repr

structure CanvasSettings where
  width : ℚ
  height : ℚ
  backgroundColor : String
  deriving DecidableEq, Repr

structure GrydComposition where
  id : String
  version : ℕ
  canvas : CanvasSettings
  layers : List GradientLayer
  globalEffects : GlobalEffects
  deriving DecidableEq, Repr

/-! ## Halftone interpolation and pattern selection
(`CanvasRenderer.interpolateHalftoneSources`, `CanvasRenderer.applyHalftoneGradient`) -/

/-- One hexadecimal digit, as read by JavaScript `parseInt(·, 16)`
(both cases accepted). -/
def hexDigitVal (c : Char) : Option ℕ :=
  if '0' ≤ c ∧ c ≤ '9' then some (c.toNat - '0'.toNat)
  else if 'a' ≤ c ∧ c ≤ 'f' then some (c.toNat - 'a'.toNat + 10)
  else if 'A' ≤ c ∧ c ≤ 'F' then some (c.toNat - 'A'.toNat + 10)
  else none

/-- JavaScript `parseInt(s, 16)`: parses the maximal hex-digit prefix,
`none` standing for `NaN` when no digit is readable. -/
def parseMaxHex : List Char → ℕ → Bool → Option ℕ
  | [], acc, seen => if seen then some acc else none
  | c :: rest, acc, seen =>
      match hexDigitVal c with
      | some d => parseMaxHex rest (16 * acc + d) true
      | none => if seen then some acc else none

def jsParseIntHex (s : String) : Option ℕ := parseMaxHex s.toList 0 false

/-- The linear interpolation helper `lerp` of `interpolateHalftoneSources`. -/
def lerp (a b t : ℚ) : ℚ := a + (b - a) * t

/-- One colour channel of `lerpColor`: parse both operands, interpolate and
`Math.round`; `none` is the `NaN` produced by an unparseable channel. -/
def lerpChannel (a b : Option ℕ) (t : ℚ) : Option ℤ :=
  match a, b with
  | some av, some bv => some (jsRound (lerp (av : ℚ) (bv : ℚ) t))
  | _, _ => none

/-- JavaScript `n.toString(16)` for an integer. -/
def jsHexString (n : ℤ) : String :=
  if n < 0 then "-" ++ ⟨Nat.toDigits 16 n.natAbs⟩ else ⟨Nat.toDigits 16 n.toNat⟩

/-- JavaScript `s.padStart(2, '0')`. -/
def jsPadStart2 (s : String) : String :=
  if s.length < 2 then ⟨List.replicate (2 - s.length) '0' ++ s.toList⟩ else s

/-- A channel of the interpolated colour, rendered as in
`${r.toString(16).padStart(2, '0')}` (the `NaN` channel renders as the string
`"NaN"`, as in JavaScript). -/
def channelHex (v : Option ℤ) : String :=
  match v with
  | none => jsPadStart2 "NaN"
  | some n => jsPadStart2 (jsHexString n)

/-- The call `hex.replace('#', '')` drops every `#`; `substring` picks channel pairs. -/
def hexBody (s : String) : List Char := s.toList.filter (fun c => c ≠ '#')

/-- The `lerpColor` closure of `interpolateHalftoneSources`. -/
def lerpColor (colorA colorB : String) (t : ℚ) : String :=
  let ha := hexBody colorA
  let hb := hexBody colorB
  let ra := jsParseIntHex ⟨ha.take 2⟩
  let ga := jsParseIntHex ⟨(ha.drop 2).take 2⟩
  let ba := jsParseIntHex ⟨(ha.drop 4).take 2⟩
  let rb := jsParseIntHex ⟨hb.take 2⟩
  let gb := jsParseIntHex ⟨(hb.drop 2).take 2⟩
  let bb := jsParseIntHex ⟨(hb.drop 4).take 2⟩
  "#" ++ channelHex (lerpChannel ra rb t) ++ channelHex (lerpChannel ga gb t)
    ++ channelHex (lerpChannel ba bb t)

/-- The bucketed-attribute interpolation
`t < 0.33 ? sourceA.x : t < 0.66 ? 'medium' : sourceB.x`. -/
def bucketStep (a b : LevelBucket) (t : ℚ) : LevelBucket :=
  if t < 33/100 then a else if t < 66/100 then .medium else b

/-- Embeds `CanvasRenderer.interpolateHalftoneSources`. -/
def interpolateHalftoneSources (sourceA sourceB : HalftoneSource) (t : ℚ) :
    HalftoneSource where
  dotSizeMin := lerp sourceA.dotSizeMin sourceB.dotSizeMin t
  dotSizeMax := lerp sourceA.dotSizeMax sourceB.dotSizeMax t
  dotDensity := bucketStep sourceA.dotDensity sourceB.dotDensity t
  contrast := bucketStep sourceA.contrast sourceB.contrast t
  noiseLevel := bucketStep sourceA.noiseLevel sourceB.noiseLevel t
  patternType := if t < 1/2 then sourceA.patternType else sourceB.patternType
  baseColor := lerpColor sourceA.baseColor sourceB.baseColor t
  inkColor := lerpColor sourceA.inkColor sourceB.inkColor t

/-- The dot-placement selection of `CanvasRenderer.applyHalftoneGradient`:

```
const useOrderedPattern = gradientPosition > 0.5
  ? interpolatedSource.patternType === 'ordered_halftone'
  : interpolatedSource.patternType === 'stochastic_halftone'
if (useOrderedPattern || interpolatedSource.patternType === 'ordered_halftone')
  drawOrderedHalftone(...) else drawStochasticHalftone(...)
```

`true` means the ordered (grid) algorithm is drawn, `false` the stochastic
one. -/
def halftoneUsesOrdered (halftone : HalftoneGradientEffect) : Bool :=
  let interpolatedSource :=
    interpolateHalftoneSources halftone.sourceA halftone.sourceB
      halftone.gradientPosition
  let useOrderedPattern :=
    if halftone.gradientPosition > 1/2 then
      interpolatedSource.patternType == .ordered
    else
      interpolatedSource.patternType == .stochastic
  useOrderedPattern || interpolatedSource.patternType == .ordered

/-! ## Draw-command trace semantics of the two renderers

`drawFrame` in `CanvasRenderer` and `IOSRenderer` is embedded as a function
producing the sequence of surface-content-affecting operations it performs
(background fills, layer gradient fills, glow passes, global effect
applications, offscreen copies), or the exception it throws.  Pure context
state changes (`save`, `translate`, `globalAlpha`, blend-mode selection) do
not touch pixels and are not recorded.  Per the HTML canvas standard,
`CanvasGradient.addColorStop` throws an `IndexSizeError` `DOMException` when
the offset lies outside `[0, 1]`; this is the only throwing operation on the
render path and is modelled with `Except`. -/

inductive Target
  | visible | offscreen
  deriving DecidableEq, Repr

inductive EffectTag
  | blur | grain | noise | halftone | metal | texture
  deriving DecidableEq, Repr

inductive RenderEvent
  /-- A `ctx.fillRect` of the whole surface with the background colour. -/
  | fillBackground (target : Target)
  /-- the gradient `fillRect` of one layer (identified by its id). -/
  | layerFill (target : Target) (id : String)
  /-- one of the three glow passes of `CanvasRenderer.applyGlow`. -/
  | glowFill (target : Target) (pass : ℕ)
  /-- a global effect application on the visible surface
  (`applyGlobalBlur` / `applyGrain` / `applyNoise` / `applyHalftoneGradient` /
  `applyCorrugatedMetal` / `applyTextureEffect`). -/
  | applyEffect (tag : EffectTag)
  /-- An `applySafeBlur` call in the iOS renderer: reads `src`, writes `dst`. -/
  | safeBlur (src dst : Target)
  /-- a plain full-surface `drawImage` copy from `src` to `dst`. -/
  | copyImage (src dst : Target)
  deriving DecidableEq, Repr

inductive RenderError
  /-- An `IndexSizeError` from `CanvasGradient.addColorStop`. -/
  | indexSizeError
  deriving DecidableEq, Repr

/-- The `gradient.addColorStop(stop.position, stop.color)` loop shared by
`CanvasRenderer.createGradient` and `IOSRenderer.createGradientOnContext`:
stops are added in stored order, and the first offset outside `[0, 1]`
throws. -/
def addColorStops : List GradientColorStop → Except RenderError Unit
  | [] => .ok ()
  | stop :: rest =>
      if stop.position < 0 ∨ 1 < stop.position then .error .indexSizeError
      else addColorStops rest

/-- Embeds `CanvasRenderer.createGradient` / `IOSRenderer.createGradientOnContext`:
every `GradientType` constructs a gradient (mesh falls back to the radial
construction), then the colour stops are added unsorted and unclamped.  The
gradient object itself carries no information the trace semantics needs, so
success is `Unit`. -/
def createGradient (layer : GradientLayer) : Except RenderError Unit :=
  match layer.type with
  | .linear => addColorStops layer.colors
  | .radial => addColorStops layer.colors
  | .mesh => addColorStops layer.colors

/-- Embeds `CanvasRenderer.renderLayer`: skip when fewer than 2 colour stops,
otherwise build the gradient (which may throw), fill, and run the glow
passes (3 more gradient fills) when glow is enabled with positive
intensity. -/
def renderLayerEvents (target : Target) (layer : GradientLayer) :
    Except RenderError (List RenderEvent) :=
  if layer.colors.length < 2 then .ok []
  else
    match createGradient layer with
    | .error e => .error e
    | .ok _ =>
        .ok (RenderEvent.layerFill target layer.id ::
          (if layer.effects.glow.enabled ∧ 0 < layer.effects.glow.intensity
           then
            [RenderEvent.glowFill target 0, .glowFill target 1,
              .glowFill target 2]
           else []))

/-- Embeds `IOSRenderer.renderLayerToContext`: same skip guard and gradient fill,
but no glow pass. -/
def renderLayerToContextEvents (target : Target) (layer : GradientLayer) :
    Except RenderError (List RenderEvent) :=
  if layer.colors.length < 2 then .ok []
  else
    match createGradient layer with
    | .error e => .error e
    | .ok _ => .ok [RenderEvent.layerFill target layer.id]

/-- The `for (const layer of layers) { if (!layer.visible) continue; ... }`
loop, parameterised by the per-layer renderer. -/
def renderVisibleLayers
    (renderOne : GradientLayer → Except RenderError (List RenderEvent)) :
    List GradientLayer → Except RenderError (List RenderEvent)
  | [] => .ok []
  | layer :: rest =>
      match (if layer.visible then renderOne layer else .ok []) with
      | .error e => .error e
      | .ok evs =>
          match renderVisibleLayers renderOne rest with
          | .error e => .error e
          | .ok restEvs => .ok (evs ++ restEvs)

/-- The six guarded global-effect applications of `CanvasRenderer.drawFrame`,
in source order: blur, grain, noise, halftone, metal, texture, each skipped
when its `enabled` flag is false. -/
def canvasGlobalEffectEvents (ge : GlobalEffects) : List RenderEvent :=
  (if ge.blur.enabled then [RenderEvent.applyEffect .blur] else [])
    ++ (if ge.grain.enabled then [RenderEvent.applyEffect .grain] else [])
    ++ (if ge.noise.enabled then [RenderEvent.applyEffect .noise] else [])
    ++ (if ge.halftone.enabled then [RenderEvent.applyEffect .halftone] else [])
    ++ (if ge.metal.enabled then [RenderEvent.applyEffect .metal] else [])
    ++ (if ge.texture.enabled then [RenderEvent.applyEffect .texture] else [])

/-- Embeds `CanvasRenderer.drawFrame`: background fill, visible layers in array
order on the visible surface, then the global effects. -/
def drawFrameCanvas (composition : GrydComposition) :
    Except RenderError (List RenderEvent) :=
  match renderVisibleLayers (renderLayerEvents .visible) composition.layers
  with
  | .error e => .error e
  | .ok layerEvs =>
      .ok (RenderEvent.fillBackground .visible :: layerEvs
        ++ canvasGlobalEffectEvents composition.globalEffects)

/-- The grain/noise/halftone/metal/texture tail of `IOSRenderer.drawFrame`
(steps after the blur-or-copy step), skipped when disabled. -/
def iosTailEffectEvents (ge : GlobalEffects) : List RenderEvent :=
  (if ge.grain.enabled then [RenderEvent.applyEffect .grain] else [])
    ++ (if ge.noise.enabled then [RenderEvent.applyEffect .noise] else [])
    ++ (if ge.halftone.enabled then [RenderEvent.applyEffect .halftone] else [])
    ++ (if ge.metal.enabled then [RenderEvent.applyEffect .metal] else [])
    ++ (if ge.texture.enabled then [RenderEvent.applyEffect .texture] else [])

/-- The blur-or-copy step of `IOSRenderer.drawFrame`: with blur enabled at
positive strength `applySafeBlur` reads the offscreen buffer and writes the
visible surface; otherwise the offscreen buffer is drawn to the visible
surface unchanged. -/
def iosBlurStep (ge : GlobalEffects) : List RenderEvent :=
  if ge.blur.enabled ∧ 0 < ge.blur.strength then
    [RenderEvent.safeBlur .offscreen .visible]
  else
    [RenderEvent.copyImage .offscreen .visible]

/-- Embeds `IOSRenderer.drawFrame`: the source first fills the visible surface with
the background and draws every visible layer directly to it (the loop at the
top of `drawFrame`), then clears the offscreen buffer and draws every visible
layer again to the offscreen buffer, then performs the blur-or-copy step,
then runs the remaining global effects on the visible surface. -/
def drawFrameIOS (composition : GrydComposition) :
    Except RenderError (List RenderEvent) :=
  match renderVisibleLayers (renderLayerToContextEvents .visible)
    composition.layers with
  | .error e => .error e
  | .ok directEvs =>
      match renderVisibleLayers (renderLayerToContextEvents .offscreen)
        composition.layers with
      | .error e => .error e
      | .ok offscreenEvs =>
          .ok (RenderEvent.fillBackground .visible :: directEvs
            ++ RenderEvent.fillBackground .offscreen :: offscreenEvs
            ++ iosBlurStep composition.globalEffects
            ++ iosTailEffectEvents composition.globalEffects)

/-- The global-effect applications contained in a trace, in order.  The iOS
safe blur counts as an application of the blur effect. -/
def effectTagsOf (events : List RenderEvent) : List EffectTag :=
  events.filterMap fun e =>
    match e with
    | .applyEffect t => some t
    | .safeBlur _ _ => some .blur
    | _ => none

/-- The fixed global-effect order stated by the specification. -/
def canonicalEffectOrder : List EffectTag :=
  [.blur, .grain, .noise, .halftone, .metal, .texture]

/-- The `enabled` flag of a global effect. -/
def effectEnabled (ge : GlobalEffects) : EffectTag → Bool
  | .blur => ge.blur.enabled
  | .grain => ge.grain.enabled
  | .noise => ge.noise.enabled
  | .halftone => ge.halftone.enabled
  | .metal => ge.metal.enabled
  | .texture => ge.texture.enabled

/-- Whether `IOSRenderer.drawFrame` invokes an effect's application function:
as for the primary renderer, except that blur additionally requires positive
strength (`globalEffects.blur?.enabled && globalEffects.blur.strength > 0`). -/
def iosEffectApplies (ge : GlobalEffects) : EffectTag → Bool
  | .blur => ge.blur.enabled && decide (0 < ge.blur.strength)
  | t => effectEnabled ge t

/-- The sorted colour-stop list of the static fallback's `CSSLayer`
(`Waitlist.tsx`): `[...colors].sort((a, b) => a.position - b.position)`,
a stable sort by position. -/
def cssSortedStops (colors : List GradientColorStop) : List GradientColorStop :=
  colors.mergeSort (fun a b => a.position ≤ b.position)

/-! ## Byte-level blur engine

`CanvasRenderer.applyGlobalBlur` with the edge-clamp padding, the wrapper
`stackBlurCanvasRGBA` (which delegates to `stackBlurCanvasRGBA_Fast`), and the
sliding-window box-blur passes `boxBlurH_fast` / `boxBlurV_fast`, plus the iOS
`applySafeBlur`.  A surface is a total function from pixel coordinates to an
RGBA pixel; the box-blur passes themselves are modelled on the underlying
`Uint8ClampedArray`, because the source feeds the raw, possibly fractional
blur strength `r` straight into the loop index arithmetic
(`clamp(j - r)`, `clamp(j + r + 1)`), and a fractional strength therefore
produces non-integral or channel-shifted array indices.  JavaScript
semantics for those accesses: reading a typed array at a non-integral or
out-of-range index yields `undefined`, arithmetic with `undefined` yields
`NaN`, `Math.round(NaN)` is `NaN`, and storing `NaN` into a
`Uint8ClampedArray` writes 0.  `JSNum` models a JavaScript number that may
be `NaN`. -/

structure Pixel where
  r : ℕ
  g : ℕ
  b : ℕ
  a : ℕ
  deriving DecidableEq, Repr

def Surface : Type := ℕ → ℕ → Pixel

/-- JavaScript `Math.min(limit - 1, Math.max(0, k))` at integer arguments:
the edge-index clamp as used by the (integer-coordinate) padding step. -/
def clampIdx (limit : ℕ) (k : ℤ) : ℕ := (min ((limit : ℤ) - 1) (max 0 k)).toNat

/-- JavaScript `Math.min(limit - 1, Math.max(0, k))` on a raw (possibly
fractional) number, as computed inside the box-blur loops. -/
def clampQ (limit : ℕ) (k : ℚ) : ℚ := min ((limit : ℚ) - 1) (max 0 k)

/-- A JavaScript number that is either an ordinary (rational-modelled) value
or `NaN`; `undefined` entering arithmetic immediately becomes `NaN`, so one
poison value suffices. -/
inductive JSNum
  | num (q : ℚ)
  | nan
  deriving DecidableEq, Repr

def JSNum.add : JSNum → JSNum → JSNum
  | .num a, .num b => .num (a + b)
  | _, _ => .nan

def JSNum.sub : JSNum → JSNum → JSNum
  | .num a, .num b => .num (a - b)
  | _, _ => .nan

def JSNum.mul : JSNum → JSNum → JSNum
  | .num a, .num b => .num (a * b)
  | _, _ => .nan

/-- The raster bytes of a canvas (`ImageData.data`), indexed row-major as
`(y·w + x)·4 + channel`.  Values at indices at or beyond the array length
never correspond to a real slot and are never observed through `arrRead`. -/
def ByteArr : Type := ℕ → ℕ

/-- A `Uint8ClampedArray` read `a[p]` at a JavaScript-number index: a byte if
`p` is an integral in-range index, otherwise `undefined`, which poisons the
following arithmetic — modelled as `nan`. -/
def arrRead (a : ByteArr) (len : ℕ) (p : ℚ) : JSNum :=
  if p.den = 1 ∧ 0 ≤ p.num ∧ p.num < len then .num (a p.num.toNat) else .nan

/-- A store `tcl[dest] = Math.round(x)` into a `Uint8ClampedArray` slot:
round, clamp to `[0, 255]`; `NaN` stores 0. -/
def storeByte : JSNum → ℕ
  | .num q => min 255 (jsRound q).toNat
  | .nan => 0

/-- The channel of an RGBA pixel selected by a byte offset `ch ∈ [0, 4)`. -/
def chanVal (c : Pixel) (ch : ℕ) : ℕ :=
  if ch = 0 then c.r else if ch = 1 then c.g else if ch = 2 then c.b else c.a

/-- The `ImageData` byte view of a surface of width `w`. -/
def surfaceBytes (s : Surface) (w : ℕ) : ByteArr :=
  fun n => chanVal (s (n / 4 % w) (n / 4 / w)) (n % 4)

/-- Reassembling one pixel from a byte array (the final `drawImage` of the
blurred canvas reads its committed raster back as pixels). -/
def pixelFromBytes (a : ByteArr) (w : ℕ) (x y : ℕ) : Pixel :=
  ⟨a ((y * w + x) * 4), a ((y * w + x) * 4 + 1), a ((y * w + x) * 4 + 2),
    a ((y * w + x) * 4 + 3)⟩

/-- Iteration count of `for (let j = -r; j <= r; j++)`: the loop body runs
for `j = -r + k` while `k ≤ 2r`, i.e. `⌊2r⌋ + 1` times (for `r ≥ 0`). -/
def preloadSamples (r : ℚ) : ℕ := (⌊2 * r⌋ + 1).toNat

/-- The preload loop of `boxBlurH_fast` for row base `ti = i·w` and channel
offset `ch`: sample index `idx = clamp(j)` with `j = -r + k`, read at
`(ti + idx)·4 + ch`. -/
def preloadH (a : ByteArr) (len w : ℕ) (r : ℚ) (ti ch : ℕ) : JSNum :=
  (List.range (preloadSamples r)).foldl
    (fun acc (k : ℕ) =>
      acc.add (arrRead a len (((ti : ℚ) + clampQ w ((k : ℚ) - r)) * 4 + ch)))
    (.num 0)

/-- The sliding-window sum of `boxBlurH_fast` at column `j`: start from the
preload, and at each step remove the sample at `clamp(j - r)` and add the
sample at `clamp(j + r + 1)` — with `r` the raw strength, so the clamped
offsets may be fractional. -/
def windowSumH (a : ByteArr) (len w : ℕ) (r : ℚ) (ti ch : ℕ) : ℕ → JSNum
  | 0 => preloadH a len w r ti ch
  | j + 1 =>
      ((windowSumH a len w r ti ch j).sub
          (arrRead a len (((ti : ℚ) + clampQ w ((j : ℚ) - r)) * 4 + ch))).add
        (arrRead a len (((ti : ℚ) + clampQ w ((j : ℚ) + r + 1)) * 4 + ch))

/-- Embeds `CanvasRenderer.boxBlurH_fast`: horizontal sliding-window box
blur over the bytes of a `w × h` raster.  The write index
`dest = (i·w + j)·4 + ch` is always integral; `dest` decomposes as channel
`dest % 4`, column `dest / 4 % w` and row `dest / 4 / w`. -/
def boxBlurH_fast (a : ByteArr) (w h : ℕ) (r : ℚ) : ByteArr :=
  fun dest =>
    storeByte ((windowSumH a (4 * w * h) w r (dest / 4 / w * w) (dest % 4)
      (dest / 4 % w)).mul (.num (1 / (r * 2 + 1))))

/-- The preload loop of `boxBlurV_fast` for column `col` and channel `ch`:
read at `(idx·w + col)·4 + ch` with `idx = clamp(j)`. -/
def preloadV (a : ByteArr) (len w h : ℕ) (r : ℚ) (col ch : ℕ) : JSNum :=
  (List.range (preloadSamples r)).foldl
    (fun acc (k : ℕ) =>
      acc.add (arrRead a len ((clampQ h ((k : ℚ) - r) * w + col) * 4 + ch)))
    (.num 0)

/-- The sliding-window sum of `boxBlurV_fast` at row `j` of a column. -/
def windowSumV (a : ByteArr) (len w h : ℕ) (r : ℚ) (col ch : ℕ) : ℕ → JSNum
  | 0 => preloadV a len w h r col ch
  | j + 1 =>
      ((windowSumV a len w h r col ch j).sub
          (arrRead a len ((clampQ h ((j : ℚ) - r) * w + col) * 4 + ch))).add
        (arrRead a len ((clampQ h ((j : ℚ) + r + 1) * w + col) * 4 + ch))

/-- Embeds `CanvasRenderer.boxBlurV_fast`: vertical sliding-window box blur
over the bytes of a `w × h` raster. -/
def boxBlurV_fast (a : ByteArr) (w h : ℕ) (r : ℚ) : ByteArr :=
  fun dest =>
    storeByte ((windowSumV a (4 * w * h) w h r (dest / 4 % w) (dest % 4)
      (dest / 4 / w)).mul (.num (1 / (r * 2 + 1))))

/-- Embeds `CanvasRenderer.stackBlurCanvasRGBA_Fast`: three passes of
horizontal followed by vertical box blur (the ping-pong between `px` and
`tmp` leaves the final result of the third vertical pass as the image
content). -/
def stackBlurCanvasRGBA_Fast (w h : ℕ) (radius : ℚ) (px : ByteArr) : ByteArr :=
  let p1 := boxBlurV_fast (boxBlurH_fast px w h radius) w h radius
  let p2 := boxBlurV_fast (boxBlurH_fast p1 w h radius) w h radius
  boxBlurV_fast (boxBlurH_fast p2 w h radius) w h radius

/-- The active `stackBlurCanvasRGBA` wrapper: `if (radius < 1) return`, else
the fast 3-pass blur on the raw radius. -/
def stackBlurCanvasRGBA (w h : ℕ) (radius : ℚ) (px : ByteArr) : ByteArr :=
  if radius < 1 then px else stackBlurCanvasRGBA_Fast w h radius px

/-- The edge-clamp padding step of `applyGlobalBlur`: the nine `drawImage`
calls (centre, four stretched edge strips, four corner pixels) populate a
`(w + 2p) × (h + 2p)` buffer whose pixel at `(x, y)` is the source pixel at
the clamped coordinate `(x - p, y - p)`.  These are integer-coordinate
draws — the padding itself is `Math.ceil(strength * 2)`, an integer. -/
def padClamp (s : Surface) (w h p : ℕ) : Surface :=
  fun x y => s (clampIdx w ((x : ℤ) - p)) (clampIdx h ((y : ℤ) - p))

/-- Embeds `CanvasRenderer.applyGlobalBlur`.  `hostFilterBlur` is the host's
native `ctx.filter = 'blur(...)'` rasteriser (its behaviour is host-defined
and is universally quantified in the theorems); the fallback path takes the
padded surface's `ImageData` bytes, runs the stack blur with the raw
strength, and draws back only the original-sized region offset by the
padding (`drawImage(tempCanvas, -padding, -padding)` with
`globalCompositeOperation = 'copy'`).  The result is meaningful on the
canvas's own pixels `x < w`, `y < h`. -/
def applyGlobalBlur (hostFilterBlur : ℚ → ℕ → ℕ → Surface → Surface)
    (isFilterSupported : Bool) (strength : ℚ) (w h : ℕ) (s : Surface) :
    Surface :=
  if strength ≤ 0 then s
  else
    let padding : ℕ := min w (min h (jsCeil (strength * 2)).toNat)
    let padded := padClamp s w h padding
    if isFilterSupported then
      fun x y =>
        hostFilterBlur strength (w + 2 * padding) (h + 2 * padding) padded
          (x + padding) (y + padding)
    else
      let blurred :=
        stackBlurCanvasRGBA (w + 2 * padding) (h + 2 * padding) strength
          (surfaceBytes padded (w + 2 * padding))
      fun x y => pixelFromBytes blurred (w + 2 * padding) (x + padding)
        (y + padding)

/-! ### iOS `applySafeBlur` (`blurStrategy.ts`)

`drawImage` at identical source and destination size is a pixel copy; a
scaling `drawImage` resamples through the host's bilinear filter, which the
web platform does not specify, so it is an explicit parameter `resample`.
The optional pre-rendered blur-texture overlay (`tileTexture` with `screen`
blending) is likewise host-image-dependent and passed as `overlayTexture`. -/

structure BlurCache where
  buffer : Option (ℕ × ℕ × Surface)
  strength : ℚ
  isValid : Bool

/-- Embeds `createBlurCache`. -/
def createBlurCache : BlurCache := ⟨none, 0, false⟩

/-- Embeds `invalidateBlurCache`. -/
def invalidateBlurCache (cache : BlurCache) : BlurCache :=
  { cache with isValid := false }

/-- A `drawImage(src, 0, 0, dw, dh)` of a `sw × sh` source: an exact copy
when the sizes agree, otherwise the host resampler. -/
def drawImageScaled (resample : Surface → ℕ → ℕ → ℕ → ℕ → Surface)
    (src : Surface) (sw sh dw dh : ℕ) : Surface :=
  if sw = dw ∧ sh = dh then src else resample src sw sh dw dh

/-- Embeds `applyDownscaleBlur`: map strength to a divisor in `[2, 20]`
(`Math.max(2, Math.min(20, strength / 5))`), downscale the source into the
(possibly cached) small buffer, and upscale it back over the target. -/
def applyDownscaleBlur (resample : Surface → ℕ → ℕ → ℕ → ℕ → Surface)
    (source : Surface) (sw sh : ℕ) (cache : BlurCache) (strength : ℚ)
    (w h : ℕ) : Surface × BlurCache :=
  let needRefresh : Bool :=
    !cache.isValid || cache.buffer.isNone || cache.strength != strength ||
      (match cache.buffer with
       | some b => b.1 == 0
       | none => false)
  let cache' :=
    if needRefresh then
      let divisor : ℚ := max 2 (min 20 (strength / 5))
      let smallW : ℕ := max 16 (jsFloor ((w : ℚ) / divisor)).toNat
      let smallH : ℕ := max 16 (jsFloor ((h : ℚ) / divisor)).toNat
      let small := drawImageScaled resample source sw sh smallW smallH
      { buffer := some (smallW, smallH, small), strength := strength,
        isValid := true }
    else cache
  match cache'.buffer with
  | some (bw, bh, buf) => (drawImageScaled resample buf bw bh w h, cache')
  | none => (drawImageScaled resample source sw sh w h, cache')

/-- Embeds `applySafeBlur` (the texture-overlay variant used by the iOS renderer):
strength ≤ 0 draws the source straight through; otherwise the
downscale-upscale blur runs and, when the pre-rendered textures are loaded,
the tiled blur texture is composited on top with `screen` blending at opacity
`min(0.6, strength / 100)` (the compositing itself is the host-image-dependent
`overlayTexture`). -/
def applySafeBlur (resample : Surface → ℕ → ℕ → ℕ → ℕ → Surface)
    (overlayTexture : Surface → ℚ → Surface) (texturesLoaded : Bool)
    (source : Surface) (sw sh : ℕ) (cache : BlurCache) (strength : ℚ)
    (w h : ℕ) : Surface × BlurCache :=
  if strength ≤ 0 then
    (drawImageScaled resample source sw sh w h, cache)
  else
    let (base, cache') := applyDownscaleBlur resample source sw sh cache
      strength w h
    if texturesLoaded then
      (overlayTexture base (min (6/10) (strength / 100)), cache')
    else
      (base, cache')

/-! ## Per-pixel noise (`applyNoise`, `perlinNoise`, `simplexNoise`, `hash2D`)

The float library functions `Math.sin` and `Math.sqrt` are host floats; they
are collected in a `JSMath` parameter so every theorem quantifies over the
host's implementation.  `Math.random` is modelled as a stream `ℕ → ℚ` of
draw results together with a cursor that advances on each draw. -/

structure JSMath where
  sin : ℚ → ℚ
  sqrt : ℚ → ℚ

/-- Embeds `CanvasRenderer.hash2D`:
`n = Math.sin(x * 12.9898 + y * 78.233) * 43758.5453; (n - ⌊n⌋) * 2 - 1`. -/
def hash2D (m : JSMath) (x y : ℚ) : ℚ :=
  let n := m.sin (x * 12.9898 + y * 78.233) * 43758.5453
  (n - (jsFloor n : ℚ)) * 2 - 1

/-- Embeds `CanvasRenderer.perlinNoise`: smoothstep-weighted bilinear interpolation
of the four hashed corners. -/
def perlinNoise (m : JSMath) (x y : ℚ) : ℚ :=
  let floorX : ℚ := (jsFloor x : ℚ)
  let floorY : ℚ := (jsFloor y : ℚ)
  let fracX := x - floorX
  let fracY := y - floorY
  let sx := fracX * fracX * (3 - 2 * fracX)
  let sy := fracY * fracY * (3 - 2 * fracY)
  let n00 := hash2D m floorX floorY
  let n10 := hash2D m (floorX + 1) floorY
  let n01 := hash2D m floorX (floorY + 1)
  let n11 := hash2D m (floorX + 1) (floorY + 1)
  let nx0 := n00 + sx * (n10 - n00)
  let nx1 := n01 + sx * (n11 - n01)
  nx0 + sy * (nx1 - nx0)

/-- Embeds `CanvasRenderer.simplexNoise`: skew/unskew triangular-lattice noise with
corner contribution kernels. -/
def simplexNoise (m : JSMath) (x y : ℚ) : ℚ :=
  let F2 := 1/2 * (m.sqrt 3 - 1)
  let G2 := (3 - m.sqrt 3) / 6
  let s := (x + y) * F2
  let i : ℚ := (jsFloor (x + s) : ℚ)
  let j : ℚ := (jsFloor (y + s) : ℚ)
  let t := (i + j) * G2
  let x0 := x - (i - t)
  let y0 := y - (j - t)
  let i1 : ℚ := if x0 > y0 then 1 else 0
  let j1 : ℚ := if x0 > y0 then 0 else 1
  let x1 := x0 - i1 + G2
  let y1 := y0 - j1 + G2
  let x2 := x0 - 1 + 2 * G2
  let y2 := y0 - 1 + 2 * G2
  let t0 := 1/2 - x0 * x0 - y0 * y0
  let n0 := if t0 > 0 then (t0 * t0) * (t0 * t0) * hash2D m i j else 0
  let t1 := 1/2 - x1 * x1 - y1 * y1
  let n1 := if t1 > 0 then (t1 * t1) * (t1 * t1) * hash2D m (i + i1) (j + j1)
    else 0
  let t2 := 1/2 - x2 * x2 - y2 * y2
  let n2 := if t2 > 0 then (t2 * t2) * (t2 * t2) * hash2D m (i + 1) (j + 1)
    else 0
  70 * (n0 + n1 + n2)

/-- The per-pixel `noiseValue` switch of `CanvasRenderer.applyNoise`: the
`perlin` and `simplex` cases evaluate the lattice noises at `(x/scale,
y/scale)`; the `random` (and default) case draws `Math.random() * 2 - 1`,
advancing the random cursor.  Returns the noise value and the new cursor. -/
def applyNoiseValue (m : JSMath) (type : NoiseType) (scale : ℚ) (x y : ℚ)
    (rng : ℕ → ℚ) (cursor : ℕ) : ℚ × ℕ :=
  match type with
  | .perlin => (perlinNoise m (x / scale) (y / scale), cursor)
  | .simplex => (simplexNoise m (x / scale) (y / scale), cursor)
  | .random => (rng cursor * 2 - 1, cursor + 1)

/-! ## Export rescaling (`ExportService.exportImage`) -/

inductive ImageResolution
  | k2 | k4 | k8
  deriving DecidableEq, Repr

inductive AspectKind
  | square | wide169 | tall916
  deriving DecidableEq, Repr

/-- The `RESOLUTIONS` table. -/
def resolutionSize : ImageResolution → ℕ
  | .k2 => 2048
  | .k4 => 4096
  | .k8 => 8192

/-- The aspect table (`square`, `16:9`, `9:16`). -/
def aspectDims : AspectKind → ℕ × ℕ
  | .square => (1, 1)
  | .wide169 => (16, 9)
  | .tall916 => (9, 16)

/-- The export canvas dimensions: the long edge is the resolution's base
size, the short edge is `Math.round(baseSize * ratio)`. -/
def exportCanvasDims (resolution : ImageResolution) (aspect : AspectKind) :
    ℤ × ℤ :=
  let baseSize := resolutionSize resolution
  let rw := (aspectDims aspect).1
  let rh := (aspectDims aspect).2
  if rw ≥ rh then
    ((baseSize : ℤ), jsRound ((baseSize : ℚ) * ((rh : ℚ) / (rw : ℚ))))
  else
    (jsRound ((baseSize : ℚ) * ((rw : ℚ) / (rh : ℚ))), (baseSize : ℤ))

/-- JavaScript `Math.max(composition.canvas.width, composition.canvas.height)`. -/
def originalLongEdge (composition : GrydComposition) : ℚ :=
  max composition.canvas.width composition.canvas.height

/-- JavaScript `Math.max(width, height)` of the export canvas. -/
def exportLongEdge (resolution : ImageResolution) (aspect : AspectKind) : ℚ :=
  let d := exportCanvasDims resolution aspect
  max (d.1 : ℚ) (d.2 : ℚ)

/-- The factor `scaleFactor = exportSize / originalSize`. -/
def exportScaleFactor (composition : GrydComposition)
    (resolution : ImageResolution) (aspect : AspectKind) : ℚ :=
  exportLongEdge resolution aspect / originalLongEdge composition

/-- The per-layer effect rescaling of `exportImage`: blur radius and glow
spread are multiplied by the scale factor, everything else is spread
unchanged. -/
def scaleLayerForExport (scaleFactor : ℚ) (layer : GradientLayer) :
    GradientLayer :=
  { layer with
    effects :=
      { layer.effects with
        blur := { layer.effects.blur with
          radius := layer.effects.blur.radius * scaleFactor }
        glow := { layer.effects.glow with
          spread := layer.effects.glow.spread * scaleFactor } } }

/-- The global-effect rescaling of `exportImage`: blur strength, noise scale,
grain size, texture scale and halftone dot-size multiplier are multiplied by
the scale factor; the metal ridge density is divided by it. -/
def scaleGlobalEffectsForExport (scaleFactor : ℚ) (ge : GlobalEffects) :
    GlobalEffects :=
  { ge with
    blur := { ge.blur with strength := ge.blur.strength * scaleFactor }
    noise := { ge.noise with scale := ge.noise.scale * scaleFactor }
    grain := { ge.grain with size := ge.grain.size * scaleFactor }
    metal := { ge.metal with density := ge.metal.density / scaleFactor }
    texture := { ge.texture with scale := ge.texture.scale * scaleFactor }
    halftone := { ge.halftone with
      dotSizeMultiplier := ge.halftone.dotSizeMultiplier * scaleFactor } }

/-- The composition handed to the export `CanvasRenderer`: export canvas
dimensions, rescaled layers, rescaled global effects. -/
def exportComposition (composition : GrydComposition)
    (resolution : ImageResolution) (aspect : AspectKind) : GrydComposition :=
  let dims := exportCanvasDims resolution aspect
  let sf := exportScaleFactor composition resolution aspect
  { composition with
    canvas := { composition.canvas with
      width := (dims.1 : ℚ), height := (dims.2 : ℚ) }
    layers := composition.layers.map (scaleLayerForExport sf)
    globalEffects := scaleGlobalEffectsForExport sf composition.globalEffects }

/-! ## iOS canvas constraints (`canvasConstraints.ts`, `IOSRenderer.resize`) -/

def MAX_IOS_DPR : ℚ := 2

def MAX_IOS_DIMENSION : ℤ := 2048

structure ConstrainedDimensions where
  width : ℤ
  height : ℤ
  dpr : ℚ
  cssWidth : ℚ
  cssHeight : ℚ
  deriving DecidableEq, Repr

/-- Embeds `getConstrainedDimensions`: clamp the device pixel ratio to 2, convert
CSS to physical pixels with `Math.floor`, and when either side exceeds 2048
clamp the larger side to 2048 and rescale the other through the aspect ratio
`width / height` (`Math.floor(MAX / ratio)` resp. `Math.floor(MAX * ratio)`). -/
def getConstrainedDimensions (cssWidth cssHeight systemDpr : ℚ) :
    ConstrainedDimensions :=
  let dpr := min systemDpr MAX_IOS_DPR
  let width := jsFloor (cssWidth * dpr)
  let height := jsFloor (cssHeight * dpr)
  let clamped :=
    if width > MAX_IOS_DIMENSION ∨ height > MAX_IOS_DIMENSION then
      let ratio : ℚ := (width : ℚ) / (height : ℚ)
      if width > height then
        if width > MAX_IOS_DIMENSION then
          (MAX_IOS_DIMENSION, jsFloor ((MAX_IOS_DIMENSION : ℚ) / ratio))
        else (width, height)
      else
        if height > MAX_IOS_DIMENSION then
          (jsFloor ((MAX_IOS_DIMENSION : ℚ) * ratio), MAX_IOS_DIMENSION)
        else (width, height)
    else (width, height)
  ⟨clamped.1, clamped.2, dpr, cssWidth, cssHeight⟩

structure IOSRendererSize where
  canvasWidth : ℤ
  canvasHeight : ℤ
  offscreenWidth : ℤ
  offscreenHeight : ℤ
  deriving DecidableEq, Repr

/-- Embeds `IOSRenderer.resize`: both the visible canvas and the offscreen
compositing buffer take the constrained physical dimensions. -/
def iosResize (width height systemDpr : ℚ) : IOSRendererSize :=
  let constrained := getConstrainedDimensions width height systemDpr
  ⟨constrained.width, constrained.height, constrained.width,
    constrained.height⟩

/-! ## Theorems -/

/-- A concrete halftone source pair used for the C5 counterexample. -/
def ceSourceA : HalftoneSource :=
  ⟨1/2, 2, .low, .low, .medium, .stochastic, "#F0F0F0", "#333333"⟩

def ceSourceB : HalftoneSource :=
  ⟨5/2, 6, .high, .high, .low, .ordered, "#FFFFFF", "#000000"⟩

def ceHalftone : HalftoneGradientEffect :=
  ⟨true, 0, ceSourceA, ceSourceB, .overlay, 1, 1/2, 3/10, 1/2⟩

/-- C5 counterexample.  At `gradientPosition = 0` the interpolated source's
pattern type is `sourceA`'s, here `stochastic_halftone`, yet
`applyHalftoneGradient` draws the ordered (grid) dot algorithm — contradicting
the claim that the stochastic algorithm is drawn exactly when the interpolated
pattern type is `stochastic_halftone`. -/
theorem halftone_claim_counterexample :
    (interpolateHalftoneSources ceSourceA ceSourceB 0).patternType =
      .stochastic ∧
    halftoneUsesOrdered ceHalftone = true := by
  have hpt : (interpolateHalftoneSources ceSourceA ceSourceB 0).patternType =
      if (0 : ℚ) < 1/2 then ceSourceA.patternType else ceSourceB.patternType :=
    rfl
  have h1 : (interpolateHalftoneSources ceSourceA ceSourceB 0).patternType =
      .stochastic := by
    rw [hpt, if_pos (show (0 : ℚ) < 1/2 by norm_num)]
    rfl
  refine ⟨h1, ?_⟩
  have hval : halftoneUsesOrdered ceHalftone =
      ((if (0 : ℚ) > 1/2 then
          (interpolateHalftoneSources ceSourceA ceSourceB 0).patternType ==
            HalftonePatternType.ordered
        else
          (interpolateHalftoneSources ceSourceA ceSourceB 0).patternType ==
            HalftonePatternType.stochastic) ||
        (interpolateHalftoneSources ceSourceA ceSourceB 0).patternType ==
          HalftonePatternType.ordered) := rfl
  rw [hval, if_neg (show ¬ (0 : ℚ) > 1/2 by norm_num), h1]
  rfl

/-- C5 (amended): the ordered (grid) dot algorithm is drawn exactly when the
gradient position is at most 0.5 or the interpolated pattern type is
`ordered_halftone`; in particular, the stochastic algorithm is used only when
the gradient position exceeds 0.5 and the interpolated pattern type (then
`sourceB`'s) is `stochastic_halftone`.  The end-to-end instance of the claim
holds: `gradientPosition = 0.9` with `sourceB.patternType = 'ordered_halftone'`
selects the ordered algorithm. -/
theorem halftone_pattern_selection (ht : HalftoneGradientEffect) :
    (halftoneUsesOrdered ht = true ↔
      ht.gradientPosition ≤ 1/2 ∨
        (interpolateHalftoneSources ht.sourceA ht.sourceB
            ht.gradientPosition).patternType = .ordered) ∧
    (ht.gradientPosition = 9/10 → ht.sourceB.patternType = .ordered →
      halftoneUsesOrdered ht = true) := by
  set pt := (interpolateHalftoneSources ht.sourceA ht.sourceB
    ht.gradientPosition).patternType with hptdef
  have hgp : pt =
      if ht.gradientPosition < 1/2 then ht.sourceA.patternType
      else ht.sourceB.patternType := rfl
  have hval : halftoneUsesOrdered ht =
      ((if ht.gradientPosition > 1/2 then pt == HalftonePatternType.ordered
        else pt == HalftonePatternType.stochastic) ||
        pt == HalftonePatternType.ordered) := rfl
  constructor
  · rw [hval]
    rcases lt_or_le (1/2 : ℚ) ht.gradientPosition with hgt | hle
    · rw [if_pos hgt]
      cases hc : pt <;> simp [hc] <;> linarith
    · rw [if_neg (not_lt.mpr hle)]
      cases hc : pt <;> simp [hc] <;> linarith
  · intro h9 hB
    have hgt : ht.gradientPosition > 1/2 := by rw [h9]; norm_num
    have hpB : pt = HalftonePatternType.ordered := by
      rw [hgp, if_neg (not_lt.mpr (le_of_lt hgt)), hB]
    rw [hval, if_pos hgt, hpB]
    rfl

/-- Witness for the amended C5 theorem: the end-to-end instance at concrete
sources. -/
theorem halftone_pattern_selection_witness :
    halftoneUsesOrdered ⟨true, 9/10, ceSourceA, ceSourceB, .overlay, 1, 1/2,
      3/10, 1/2⟩ = true :=
  (halftone_pattern_selection _).2 rfl rfl

/-- A concrete random stream for the C9 counterexample: the first draw returns
0, every later draw returns 1/2. -/
def ceRng : ℕ → ℚ := fun n => if n = 0 then 0 else 1/2

/-- A host math instance (any one will do for the `random` path, which never
calls `Math.sin`/`Math.sqrt`). -/
def ceMath : JSMath := ⟨fun _ => 0, fun _ => 0⟩

/-- C9 counterexample.  The `random` noise algorithm draws from
`Math.random()` rather than the 2D hash: evaluating it twice at the same
`(x, y, params)` within one call (the second evaluation continuing from the
random cursor left by the first) yields two different values, so the per-pixel
noise value of the `random` algorithm is not a deterministic function of the
pixel coordinates and parameters. -/
theorem noise_random_not_deterministic :
    (applyNoiseValue ceMath .random 1 0 0 ceRng 0).1 ≠
      (applyNoiseValue ceMath .random 1 0 0 ceRng
        (applyNoiseValue ceMath .random 1 0 0 ceRng 0).2).1 := by
  simp only [applyNoiseValue]
  norm_num [ceRng]

/-- C9 (amended): the lattice-based (`perlin`) and simplex-style (`simplex`)
noise algorithms are deterministic functions of the pixel coordinates and
parameters, driven by the deterministic 2D hash: their value is independent
of the `Math.random` stream and cursor (any two evaluations at the same
`(x, y, params)` agree), and they leave the random cursor untouched.  The
third algorithm (`random`) is excluded: it draws fresh randomness per pixel
(see the counterexample). -/
theorem noise_lattice_deterministic (m : JSMath) (scale x y : ℚ)
    (rng1 rng2 : ℕ → ℚ) (cursor1 cursor2 : ℕ) :
    ((applyNoiseValue m .perlin scale x y rng1 cursor1).1 =
        (applyNoiseValue m .perlin scale x y rng2 cursor2).1 ∧
      (applyNoiseValue m .perlin scale x y rng1 cursor1).2 = cursor1) ∧
    ((applyNoiseValue m .simplex scale x y rng1 cursor1).1 =
        (applyNoiseValue m .simplex scale x y rng2 cursor2).1 ∧
      (applyNoiseValue m .simplex scale x y rng1 cursor1).2 = cursor1) :=
  ⟨⟨rfl, rfl⟩, ⟨rfl, rfl⟩⟩

/-- C2: blur with strength ≤ 0 is the identity on pixel content.  In the
primary renderer `applyGlobalBlur` returns before touching the surface; in
the constrained renderer `applySafeBlur` draws the source canvas straight
through (an exact copy whenever the source canvas has the target's
dimensions, as `IOSRenderer` maintains).  Both conjuncts quantify over every
host filter/resampler implementation. -/
theorem blur_nonpositive_strength_identity :
    (∀ (hostFilterBlur : ℚ → ℕ → ℕ → Surface → Surface)
      (isFilterSupported : Bool) (strength : ℚ) (w h : ℕ) (S : Surface),
      strength ≤ 0 →
        applyGlobalBlur hostFilterBlur isFilterSupported strength w h S = S) ∧
    (∀ (resample : Surface → ℕ → ℕ → ℕ → ℕ → Surface)
      (overlayTexture : Surface → ℚ → Surface) (texturesLoaded : Bool)
      (S : Surface) (sw sh : ℕ) (cache : BlurCache) (strength : ℚ)
      (w h : ℕ), strength ≤ 0 → sw = w → sh = h →
        (applySafeBlur resample overlayTexture texturesLoaded S sw sh cache
          strength w h).1 = S) := by
  constructor
  · intro hostFilterBlur isFilterSupported strength w h S hs
    unfold applyGlobalBlur
    rw [if_pos hs]
  · intro resample overlayTexture texturesLoaded S sw sh cache strength w h
      hs hw hh
    unfold applySafeBlur
    rw [if_pos hs]
    unfold drawImageScaled
    rw [if_pos ⟨hw, hh⟩]

/-- Witness for C2: both blur engines at strength 0 on a concrete surface. -/
theorem blur_nonpositive_strength_identity_witness :
    applyGlobalBlur (fun _ _ _ s => s) true 0 8 6
        (fun _ _ => ⟨1, 2, 3, 255⟩) = (fun _ _ => ⟨1, 2, 3, 255⟩) ∧
    (applySafeBlur (fun s _ _ _ _ => s) (fun s _ => s) false
        (fun _ _ => ⟨1, 2, 3, 255⟩) 8 6 createBlurCache 0 8 6).1 =
      (fun _ _ => ⟨1, 2, 3, 255⟩) :=
  ⟨blur_nonpositive_strength_identity.1 _ true 0 8 6 _ (le_refl 0),
   blur_nonpositive_strength_identity.2 _ _ false _ 8 6 _ 0 8 6 (le_refl 0)
     rfl rfl⟩

/-! ### Uniform-colour behaviour of the fallback box blur (C3)

The box-blur loops receive the raw blur strength.  For an integer strength
every array access is an integral, in-range, channel-aligned index and the
sliding window averages a uniform colour back to itself; for a fractional
strength at least one access per window is non-integral, the window sums are
`NaN`-poisoned and the clamped stores write 0. -/

/-- NaN absorbs on the right of an addition. -/
theorem JSNum.add_nan (x : JSNum) : x.add .nan = .nan := by
  cases x <;> rfl

/-- NaN absorbs on the left of a subtraction. -/
theorem JSNum.nan_sub (x : JSNum) : JSNum.nan.sub x = .nan := by
  cases x <;> rfl

/-- NaN absorbs on the left of an addition. -/
theorem JSNum.nan_add (x : JSNum) : JSNum.nan.add x = .nan := by
  cases x <;> rfl

/-- NaN absorbs on the left of a multiplication. -/
theorem JSNum.nan_mul (x : JSNum) : JSNum.nan.mul x = .nan := by
  cases x <;> rfl

/-- JavaScript `Math.round` of a natural number is itself. -/
theorem jsRound_natCast (n : ℕ) : jsRound (n : ℚ) = n := by
  unfold jsRound
  rw [Int.floor_eq_iff]
  constructor
  · push_cast
    linarith
  · push_cast
    linarith

/-- Folding the accumulation step over an index list whose every sample is
the plain number `v` counts `length · v` onto the accumulator. -/
theorem foldl_add_num (v : ℚ) (g : ℕ → JSNum) (hg : ∀ k, g k = .num v)
    (l : List ℕ) (z : ℚ) :
    l.foldl (fun (acc : JSNum) (k : ℕ) => acc.add (g k)) (.num z) =
      .num (z + l.length * v) := by
  induction l generalizing z with
  | nil => simp
  | cons head tail ih =>
      rw [List.foldl_cons]
      have hstep : (JSNum.num z).add (g head) = .num (z + v) := by
        rw [hg head]
        rfl
      rw [hstep, ih, List.length_cons]
      congr 1
      push_cast
      ring

/-- The loop `for (let j = -r; j <= r; j++)` at an integer radius `n` runs
the classical `2n + 1` times. -/
theorem preloadSamples_natCast (n : ℕ) :
    preloadSamples (n : ℚ) = 2 * n + 1 := by
  unfold preloadSamples
  rw [show (2 * (n : ℚ)) = ((2 * n : ℕ) : ℚ) by push_cast; ring,
    Int.floor_natCast]
  omega

/-- The in-loop clamp at an integer argument is the integer edge clamp. -/
theorem clampQ_intCast (limit : ℕ) (hl : 1 ≤ limit) (k : ℤ) :
    clampQ limit (k : ℚ) = ((clampIdx limit k : ℕ) : ℚ) := by
  unfold clampQ clampIdx
  have h0 : (0 : ℤ) ≤ min ((limit : ℤ) - 1) (max 0 k) := by
    have h1 : (0 : ℤ) ≤ (limit : ℤ) - 1 := by
      have h2 : (1 : ℤ) ≤ (limit : ℤ) := by exact_mod_cast hl
      omega
    exact le_min h1 (le_max_left _ _)
  rw [show (((min ((limit : ℤ) - 1) (max 0 k)).toNat : ℕ) : ℚ) =
      (((min ((limit : ℤ) - 1) (max 0 k)).toNat : ℤ) : ℚ) by push_cast; ring,
    Int.toNat_of_nonneg h0]
  push_cast
  rfl

/-- Reading a typed array at a natural-number index. -/
theorem arrRead_natCast (a : ByteArr) (len m : ℕ) :
    arrRead a len ((m : ℕ) : ℚ) =
      if m < len then JSNum.num (a m) else .nan := by
  unfold arrRead
  by_cases hm : m < len
  · rw [if_pos ⟨Rat.den_natCast m, by
      rw [Rat.num_natCast]
      exact ⟨Int.natCast_nonneg m, by exact_mod_cast hm⟩⟩, if_pos hm]
    simp [Rat.num_natCast]
  · rw [if_neg, if_neg hm]
    intro hcon
    rw [Rat.num_natCast] at hcon
    exact hm (by exact_mod_cast hcon.2.2)

/-- The bound on a channel accessor with byte-valued channels. -/
theorem chanVal_le (c : Pixel) (hr : c.r ≤ 255) (hg : c.g ≤ 255)
    (hb : c.b ≤ 255) (ha : c.a ≤ 255) (ch : ℕ) : chanVal c ch ≤ 255 := by
  unfold chanVal
  split_ifs <;> assumption

/-- The average-and-store at an integer radius gives a byte value back. -/
theorem storeByte_avg (n v : ℕ) (hv : v ≤ 255) :
    storeByte ((JSNum.num ((2 * n + 1) * v)).mul
      (.num (1 / ((n : ℚ) * 2 + 1)))) = v := by
  have hdiv : ((2 * (n : ℚ) + 1) * (v : ℚ)) * (1 / ((n : ℚ) * 2 + 1)) =
      (v : ℚ) := by
    have hne : ((n : ℚ) * 2 + 1) ≠ 0 := by positivity
    field_simp
    ring
  show storeByte (.num (((2 * (n : ℚ) + 1) * (v : ℚ)) *
    (1 / ((n : ℚ) * 2 + 1)))) = v
  rw [hdiv]
  show min 255 (jsRound ((v : ℕ) : ℚ)).toNat = v
  rw [jsRound_natCast]
  simp only [Int.toNat_natCast]
  omega

/-- At an integer radius, a horizontal pass over a raster that is uniform
per channel below its length stays so below its length. -/
theorem boxBlurH_fast_uniform (c : Pixel) (hr : c.r ≤ 255) (hg : c.g ≤ 255)
    (hb : c.b ≤ 255) (hap : c.a ≤ 255) (w h n : ℕ) (_hn : 1 ≤ n) (a : ByteArr)
    (ha : ∀ d, d < 4 * w * h → a d = chanVal c (d % 4)) :
    ∀ dest, dest < 4 * w * h →
      boxBlurH_fast a w h (n : ℚ) dest = chanVal c (dest % 4) := by
  intro dest hdest
  have hw : 1 ≤ w := by
    rcases Nat.eq_zero_or_pos w with h0 | h0
    · rw [h0] at hdest
      omega
    · exact h0
  have hh : 1 ≤ h := by
    rcases Nat.eq_zero_or_pos h with h0 | h0
    · rw [h0] at hdest
      omega
    · exact h0
  have hdest2 : dest < 4 * (w * h) := by
    rw [← Nat.mul_assoc]
    exact hdest
  have hpix : dest / 4 < w * h := Nat.div_lt_of_lt_mul hdest2
  have hi : dest / 4 / w < h := Nat.div_lt_of_lt_mul hpix
  have h3 : (h - 1) * w + w = h * w := by
    calc (h - 1) * w + w = ((h - 1) + 1) * w := by ring
      _ = h * w := by rw [Nat.sub_add_cancel hh]
  have hread : ∀ q : ℚ, (∃ x : ℤ, q = (x : ℚ)) →
      arrRead a (4 * w * h)
        ((((dest / 4 / w * w : ℕ) : ℚ) + clampQ w q) * 4 +
          ((dest % 4 : ℕ) : ℚ)) =
      JSNum.num (chanVal c (dest % 4)) := by
    intro q hq
    obtain ⟨x, hx⟩ := hq
    subst hx
    rw [clampQ_intCast w hw x]
    have hidx : (((dest / 4 / w * w : ℕ) : ℚ) + ((clampIdx w x : ℕ) : ℚ)) * 4
        + ((dest % 4 : ℕ) : ℚ) =
        (((dest / 4 / w * w + clampIdx w x) * 4 + dest % 4 : ℕ) : ℚ) := by
      push_cast
      ring
    rw [hidx, arrRead_natCast]
    have hci : clampIdx w x < w := by
      unfold clampIdx
      have h4 : min ((w : ℤ) - 1) (max 0 x) ≤ (w : ℤ) - 1 := min_le_left _ _
      omega
    have h2 : dest / 4 / w * w ≤ (h - 1) * w :=
      Nat.mul_le_mul_right w (by omega)
    have h1 : dest / 4 / w * w + clampIdx w x < w * h := by
      have h4 : dest / 4 / w * w + clampIdx w x < (h - 1) * w + w := by omega
      rw [h3, Nat.mul_comm h w] at h4
      exact h4
    have hbound : (dest / 4 / w * w + clampIdx w x) * 4 + dest % 4 <
        4 * w * h := by
      calc (dest / 4 / w * w + clampIdx w x) * 4 + dest % 4
          < (dest / 4 / w * w + clampIdx w x + 1) * 4 := by omega
        _ ≤ (w * h) * 4 := Nat.mul_le_mul_right 4 (by omega)
        _ = 4 * w * h := by ring
    have hmm : ((dest / 4 / w * w + clampIdx w x) * 4 + dest % 4) % 4 =
        dest % 4 := by omega
    rw [if_pos hbound, ha _ hbound, hmm]
  have hsum : ∀ j, windowSumH a (4 * w * h) w (n : ℚ) (dest / 4 / w * w)
      (dest % 4) j = .num ((2 * n + 1) * chanVal c (dest % 4)) := by
    intro j
    induction j with
    | zero =>
        unfold windowSumH preloadH
        rw [preloadSamples_natCast]
        refine (foldl_add_num ((chanVal c (dest % 4) : ℕ) : ℚ)
          (fun k => arrRead a (4 * w * h)
            ((((dest / 4 / w * w : ℕ) : ℚ) +
              clampQ w ((k : ℚ) - (n : ℚ))) * 4 + ((dest % 4 : ℕ) : ℚ)))
          (fun k => hread ((k : ℚ) - (n : ℚ))
            ⟨(k : ℤ) - (n : ℤ), by push_cast; ring⟩)
          (List.range (2 * n + 1)) 0).trans ?_
        congr 1
        rw [List.length_range]
        push_cast
        ring
    | succ j ih =>
        rw [windowSumH, ih,
          hread ((j : ℚ) - (n : ℚ)) ⟨(j : ℤ) - (n : ℤ), by push_cast; ring⟩,
          hread ((j : ℚ) + (n : ℚ) + 1)
            ⟨(j : ℤ) + (n : ℤ) + 1, by push_cast; ring⟩]
        show JSNum.num ((2 * (n : ℚ) + 1) * ((chanVal c (dest % 4) : ℕ) : ℚ)
          - ((chanVal c (dest % 4) : ℕ) : ℚ)
          + ((chanVal c (dest % 4) : ℕ) : ℚ)) = _
        congr 1
        ring
  unfold boxBlurH_fast
  rw [hsum]
  exact storeByte_avg n _ (chanVal_le c hr hg hb hap _)

/-- At an integer radius, a vertical pass over a raster that is uniform per
channel below its length stays so below its length. -/
theorem boxBlurV_fast_uniform (c : Pixel) (hr : c.r ≤ 255) (hg : c.g ≤ 255)
    (hb : c.b ≤ 255) (hap : c.a ≤ 255) (w h n : ℕ) (_hn : 1 ≤ n) (a : ByteArr)
    (ha : ∀ d, d < 4 * w * h → a d = chanVal c (d % 4)) :
    ∀ dest, dest < 4 * w * h →
      boxBlurV_fast a w h (n : ℚ) dest = chanVal c (dest % 4) := by
  intro dest hdest
  have hw : 1 ≤ w := by
    rcases Nat.eq_zero_or_pos w with h0 | h0
    · rw [h0] at hdest
      omega
    · exact h0
  have hh : 1 ≤ h := by
    rcases Nat.eq_zero_or_pos h with h0 | h0
    · rw [h0] at hdest
      omega
    · exact h0
  have hcol : dest / 4 % w < w := Nat.mod_lt _ (by omega)
  have h3 : (h - 1) * w + w = h * w := by
    calc (h - 1) * w + w = ((h - 1) + 1) * w := by ring
      _ = h * w := by rw [Nat.sub_add_cancel hh]
  have hread : ∀ q : ℚ, (∃ x : ℤ, q = (x : ℚ)) →
      arrRead a (4 * w * h)
        ((clampQ h q * ((w : ℕ) : ℚ) + ((dest / 4 % w : ℕ) : ℚ)) * 4 +
          ((dest % 4 : ℕ) : ℚ)) =
      JSNum.num (chanVal c (dest % 4)) := by
    intro q hq
    obtain ⟨x, hx⟩ := hq
    subst hx
    rw [clampQ_intCast h hh x]
    have hidx : (((clampIdx h x : ℕ) : ℚ) * ((w : ℕ) : ℚ) +
        ((dest / 4 % w : ℕ) : ℚ)) * 4 + ((dest % 4 : ℕ) : ℚ) =
        (((clampIdx h x * w + dest / 4 % w) * 4 + dest % 4 : ℕ) : ℚ) := by
      push_cast
      ring
    rw [hidx, arrRead_natCast]
    have hci : clampIdx h x < h := by
      unfold clampIdx
      have h4 : min ((h : ℤ) - 1) (max 0 x) ≤ (h : ℤ) - 1 := min_le_left _ _
      omega
    have h2 : clampIdx h x * w ≤ (h - 1) * w :=
      Nat.mul_le_mul_right w (by omega)
    have h1 : clampIdx h x * w + dest / 4 % w < w * h := by
      have h4 : clampIdx h x * w + dest / 4 % w < (h - 1) * w + w := by omega
      rw [h3, Nat.mul_comm h w] at h4
      exact h4
    have hbound : (clampIdx h x * w + dest / 4 % w) * 4 + dest % 4 <
        4 * w * h := by
      calc (clampIdx h x * w + dest / 4 % w) * 4 + dest % 4
          < (clampIdx h x * w + dest / 4 % w + 1) * 4 := by omega
        _ ≤ (w * h) * 4 := Nat.mul_le_mul_right 4 (by omega)
        _ = 4 * w * h := by ring
    have hmm : ((clampIdx h x * w + dest / 4 % w) * 4 + dest % 4) % 4 =
        dest % 4 := by omega
    rw [if_pos hbound, ha _ hbound, hmm]
  have hsum : ∀ j, windowSumV a (4 * w * h) w h (n : ℚ) (dest / 4 % w)
      (dest % 4) j = .num ((2 * n + 1) * chanVal c (dest % 4)) := by
    intro j
    induction j with
    | zero =>
        unfold windowSumV preloadV
        rw [preloadSamples_natCast]
        refine (foldl_add_num ((chanVal c (dest % 4) : ℕ) : ℚ)
          (fun k => arrRead a (4 * w * h)
            ((clampQ h ((k : ℚ) - (n : ℚ)) * ((w : ℕ) : ℚ) +
              ((dest / 4 % w : ℕ) : ℚ)) * 4 + ((dest % 4 : ℕ) : ℚ)))
          (fun k => hread ((k : ℚ) - (n : ℚ))
            ⟨(k : ℤ) - (n : ℤ), by push_cast; ring⟩)
          (List.range (2 * n + 1)) 0).trans ?_
        congr 1
        rw [List.length_range]
        push_cast
        ring
    | succ j ih =>
        rw [windowSumV, ih,
          hread ((j : ℚ) - (n : ℚ)) ⟨(j : ℤ) - (n : ℤ), by push_cast; ring⟩,
          hread ((j : ℚ) + (n : ℚ) + 1)
            ⟨(j : ℤ) + (n : ℤ) + 1, by push_cast; ring⟩]
        show JSNum.num ((2 * (n : ℚ) + 1) * ((chanVal c (dest % 4) : ℕ) : ℚ)
          - ((chanVal c (dest % 4) : ℕ) : ℚ)
          + ((chanVal c (dest % 4) : ℕ) : ℚ)) = _
        congr 1
        ring
  unfold boxBlurV_fast
  rw [hsum]
  exact storeByte_avg n _ (chanVal_le c hr hg hb hap _)

/-- At an integer radius the whole 3-pass stack blur preserves per-channel
uniformity below the raster length. -/
theorem stackBlur_uniform (c : Pixel) (hr : c.r ≤ 255) (hg : c.g ≤ 255)
    (hb : c.b ≤ 255) (hap : c.a ≤ 255) (w h n : ℕ) (hn : 1 ≤ n) (a : ByteArr)
    (ha : ∀ d, d < 4 * w * h → a d = chanVal c (d % 4)) :
    ∀ d, d < 4 * w * h →
      stackBlurCanvasRGBA w h (n : ℚ) a d = chanVal c (d % 4) := by
  have hnot : ¬ ((n : ℚ) < 1) := by
    push_neg
    exact_mod_cast hn
  intro d hd
  unfold stackBlurCanvasRGBA
  rw [if_neg hnot]
  show boxBlurV_fast (boxBlurH_fast (boxBlurV_fast (boxBlurH_fast
    (boxBlurV_fast (boxBlurH_fast a w h (n : ℚ)) w h (n : ℚ)) w h (n : ℚ))
    w h (n : ℚ)) w h (n : ℚ)) w h (n : ℚ) d = chanVal c (d % 4)
  have s1 := boxBlurH_fast_uniform c hr hg hb hap w h n hn a ha
  have s2 := boxBlurV_fast_uniform c hr hg hb hap w h n hn _ s1
  have s3 := boxBlurH_fast_uniform c hr hg hb hap w h n hn _ s2
  have s4 := boxBlurV_fast_uniform c hr hg hb hap w h n hn _ s3
  have s5 := boxBlurH_fast_uniform c hr hg hb hap w h n hn _ s4
  exact boxBlurV_fast_uniform c hr hg hb hap w h n hn _ s5 d hd

/-- Sample count of the preload loop at the fractional radius `6/5`: the
loop visits `j = -6/5`, `-1/5` and `4/5` — three iterations. -/
theorem preloadSamples_inst : preloadSamples (6/5 : ℚ) = 3 := by
  unfold preloadSamples
  rw [show (2 * (6/5 : ℚ)) = 12/5 by norm_num,
    show ⌊(12/5 : ℚ)⌋ = 2 by
      rw [Int.floor_eq_iff]
      constructor <;> norm_num]
  rfl

/-- At radius `6/5` on a 3-row raster, the third preload sample clamps to
the fractional row offset `4/5`, a non-integral array index: the read is
`undefined`, hence NaN in the sum. -/
theorem arrRead_frac_inst (a : ByteArr) (col ch : ℕ) :
    arrRead a 36 ((clampQ 3 (((2 : ℕ) : ℚ) - 6/5) * ((3 : ℕ) : ℚ) +
      ((col : ℕ) : ℚ)) * 4 + ((ch : ℕ) : ℚ)) = .nan := by
  have hcl : clampQ 3 (((2 : ℕ) : ℚ) - 6/5) = 4/5 := by
    unfold clampQ
    rw [show (((2 : ℕ) : ℚ) - 6/5) = 4/5 by push_cast; norm_num,
      max_eq_right (by norm_num : (0 : ℚ) ≤ 4/5),
      min_eq_right (by push_cast; norm_num : (4/5 : ℚ) ≤ ((3 : ℕ) : ℚ) - 1)]
  rw [hcl, show ((4/5 : ℚ) * ((3 : ℕ) : ℚ) + ((col : ℕ) : ℚ)) * 4 +
      ((ch : ℕ) : ℚ) = ((4 * col + ch : ℕ) : ℚ) + 48/5 by push_cast; ring]
  unfold arrRead
  rw [if_neg]
  intro hcon
  have hq : ((((4 * col + ch : ℕ) : ℚ) + 48/5).num : ℚ) =
      ((4 * col + ch : ℕ) : ℚ) + 48/5 := by
    have h1 := Rat.num_div_den (((4 * col + ch : ℕ) : ℚ) + 48/5)
    rw [hcon.1] at h1
    simpa using h1
  have h5 : ((5 * (((4 * col + ch : ℕ) : ℚ) + 48/5).num : ℤ) : ℚ) =
      ((5 * (4 * col + ch : ℕ) + 48 : ℤ) : ℚ) := by
    rw [show ((5 * (((4 * col + ch : ℕ) : ℚ) + 48/5).num : ℤ) : ℚ) =
      5 * ((((4 * col + ch : ℕ) : ℚ) + 48/5).num : ℚ) by push_cast; ring]
    rw [hq]
    push_cast
    ring
  have h5i : 5 * (((4 * col + ch : ℕ) : ℚ) + 48/5).num =
      5 * ((4 * col + ch : ℕ) : ℤ) + 48 := by exact_mod_cast h5
  omega

/-- At the fractional radius `6/5` on the 3 × 3 padded raster, every
vertical window sum is NaN-poisoned by the fractional third sample. -/
theorem windowSumV_nan_inst (a : ByteArr) (col ch : ℕ) :
    ∀ j, windowSumV a 36 3 3 (6/5) col ch j = .nan := by
  intro j
  induction j with
  | zero =>
      unfold windowSumV preloadV
      rw [preloadSamples_inst, show List.range 3 = [0, 1, 2] from rfl]
      simp only [List.foldl_cons, List.foldl_nil]
      rw [arrRead_frac_inst]
      exact JSNum.add_nan _
  | succ j ih =>
      rw [windowSumV, ih, JSNum.nan_sub, JSNum.nan_add]

/-- Every byte the radius-`6/5` vertical pass writes is 0 (NaN stored into
a `Uint8ClampedArray` slot), whatever the input raster. -/
theorem boxBlurV_zero_inst (a : ByteArr) (dest : ℕ) :
    boxBlurV_fast a 3 3 (6/5) dest = 0 := by
  unfold boxBlurV_fast
  rw [show (4 * 3 * 3 : ℕ) = 36 from rfl, windowSumV_nan_inst,
    JSNum.nan_mul]
  rfl

/-- C3 counterexample: the claim fails at the reachable fractional strength
`6/5`.  The source passes the raw strength into the box-blur index
arithmetic; the clamped third preload sample lands on the non-integral
offset `4/5`, the typed-array read is `undefined`, every window sum becomes
NaN, and the clamped store writes 0 — so the uniform colour
`(10, 20, 30, 255)` comes out as `(0, 0, 0, 0)`, not preserved. -/
theorem fractional_blur_uniform_counterexample :
    applyGlobalBlur (fun _ _ _ s => s) false (6/5) 1 1
        (fun _ _ => ⟨10, 20, 30, 255⟩) 0 0 = ⟨0, 0, 0, 0⟩ ∧
    (⟨0, 0, 0, 0⟩ : Pixel) ≠ ⟨10, 20, 30, 255⟩ := by
  constructor
  · have hpadv : min 1 (min 1 (jsCeil ((6/5 : ℚ) * 2)).toNat) = 1 := by
      rw [show jsCeil ((6/5 : ℚ) * 2) = 3 by
        unfold jsCeil
        rw [show ((6/5 : ℚ) * 2) = 12/5 by norm_num]
        rw [Int.ceil_eq_iff]
        constructor <;> norm_num]
      decide
    show (if (6/5 : ℚ) ≤ 0 then (fun _ _ => (⟨10, 20, 30, 255⟩ : Pixel))
      else _) 0 0 = ⟨0, 0, 0, 0⟩
    rw [if_neg (by norm_num : ¬ (6/5 : ℚ) ≤ 0)]
    show pixelFromBytes
      (stackBlurCanvasRGBA
        (1 + 2 * min 1 (min 1 (jsCeil ((6/5 : ℚ) * 2)).toNat))
        (1 + 2 * min 1 (min 1 (jsCeil ((6/5 : ℚ) * 2)).toNat)) (6/5)
        (surfaceBytes
          (padClamp (fun _ _ => ⟨10, 20, 30, 255⟩) 1 1
            (min 1 (min 1 (jsCeil ((6/5 : ℚ) * 2)).toNat)))
          (1 + 2 * min 1 (min 1 (jsCeil ((6/5 : ℚ) * 2)).toNat))))
      (1 + 2 * min 1 (min 1 (jsCeil ((6/5 : ℚ) * 2)).toNat))
      (0 + min 1 (min 1 (jsCeil ((6/5 : ℚ) * 2)).toNat))
      (0 + min 1 (min 1 (jsCeil ((6/5 : ℚ) * 2)).toNat)) = ⟨0, 0, 0, 0⟩
    rw [hpadv]
    unfold stackBlurCanvasRGBA
    rw [if_neg (by norm_num : ¬ (6/5 : ℚ) < 1)]
    unfold stackBlurCanvasRGBA_Fast
    simp only [pixelFromBytes, show (1 + 2 * 1 : ℕ) = 3 from rfl,
      boxBlurV_zero_inst]
  · decide

/-- C3 (amended): the fallback blur path — edge-clamp padding, 3 passes of
horizontal-then-vertical sliding-window box blur over the raster bytes,
then drawing back the original-sized region — preserves a uniform
byte-valued colour at every canvas pixel, including every border pixel,
whenever the positive strength is below 1 (the wrapper returns before
blurring) or is an integer (the radii whose index arithmetic never produces
a fractional array access).  Non-integer strengths of at least 1 are
excluded: there the window sums are NaN-poisoned. -/
theorem blur_uniform_preserved_integer_strengths
    (hostFilterBlur : ℚ → ℕ → ℕ → Surface → Surface) (c : Pixel)
    (hr : c.r ≤ 255) (hg : c.g ≤ 255) (hb : c.b ≤ 255) (hap : c.a ≤ 255)
    (w h : ℕ) (strength : ℚ)
    (hcase : (0 < strength ∧ strength < 1) ∨
      ∃ n : ℕ, 1 ≤ n ∧ strength = (n : ℚ))
    (x y : ℕ) (hx : x < w) (hy : y < h) :
    applyGlobalBlur hostFilterBlur false strength w h (fun _ _ => c) x y =
      c := by
  have hpos : 0 < strength := by
    rcases hcase with ⟨h0, _⟩ | ⟨n, hn, hneq⟩
    · exact h0
    · rw [hneq]
      have h1 : (1 : ℚ) ≤ (n : ℚ) := by exact_mod_cast hn
      linarith
  have hmod : ∀ m k : ℕ, k < 4 → (m * 4 + k) % 4 = k := by
    intro m k hk
    omega
  have hm0 : ∀ m : ℕ, m * 4 % 4 = 0 := by
    intro m
    omega
  show (if strength ≤ 0 then (fun _ _ => c) else _) x y = c
  rw [if_neg (not_le.mpr hpos)]
  show pixelFromBytes
    (stackBlurCanvasRGBA
      (w + 2 * min w (min h (jsCeil (strength * 2)).toNat))
      (h + 2 * min w (min h (jsCeil (strength * 2)).toNat)) strength
      (surfaceBytes
        (padClamp (fun _ _ => c) w h
          (min w (min h (jsCeil (strength * 2)).toNat)))
        (w + 2 * min w (min h (jsCeil (strength * 2)).toNat))))
    (w + 2 * min w (min h (jsCeil (strength * 2)).toNat))
    (x + min w (min h (jsCeil (strength * 2)).toNat))
    (y + min w (min h (jsCeil (strength * 2)).toNat)) = c
  set P := min w (min h (jsCeil (strength * 2)).toNat) with hP
  have hbytes : surfaceBytes
      (padClamp (fun _ _ => c) w h P) (w + 2 * P) =
      fun nn => chanVal c (nn % 4) := rfl
  rw [hbytes]
  have hbase : ((y + P) * (w + 2 * P) + (x + P)) <
      (w + 2 * P) * (h + 2 * P) := by
    calc (y + P) * (w + 2 * P) + (x + P)
        < (y + P) * (w + 2 * P) + (w + 2 * P) := by omega
      _ = (y + P + 1) * (w + 2 * P) := by ring
      _ ≤ (h + 2 * P) * (w + 2 * P) := Nat.mul_le_mul_right _ (by omega)
      _ = (w + 2 * P) * (h + 2 * P) := Nat.mul_comm _ _
  rcases hcase with ⟨_, h1⟩ | ⟨n, hn, hneq⟩
  · unfold stackBlurCanvasRGBA
    rw [if_pos h1]
    simp only [pixelFromBytes]
    rw [hm0, hmod _ 1 (by norm_num), hmod _ 2 (by norm_num),
      hmod _ 3 (by norm_num)]
    rfl
  · rw [hneq]
    have hstack := stackBlur_uniform c hr hg hb hap (w + 2 * P) (h + 2 * P) n
      hn (fun nn => chanVal c (nn % 4)) (fun d _ => rfl)
    have hk : ∀ k : ℕ, k < 4 →
        ((y + P) * (w + 2 * P) + (x + P)) * 4 + k <
          4 * (w + 2 * P) * (h + 2 * P) := by
      intro k hk4
      calc ((y + P) * (w + 2 * P) + (x + P)) * 4 + k
          < ((y + P) * (w + 2 * P) + (x + P) + 1) * 4 := by omega
        _ ≤ ((w + 2 * P) * (h + 2 * P)) * 4 :=
            Nat.mul_le_mul_right 4 (by omega)
        _ = 4 * (w + 2 * P) * (h + 2 * P) := by ring
    simp only [pixelFromBytes]
    rw [hstack (((y + P) * (w + 2 * P) + (x + P)) * 4) (hk 0 (by norm_num)),
      hstack (((y + P) * (w + 2 * P) + (x + P)) * 4 + 1) (hk 1 (by norm_num)),
      hstack (((y + P) * (w + 2 * P) + (x + P)) * 4 + 2) (hk 2 (by norm_num)),
      hstack (((y + P) * (w + 2 * P) + (x + P)) * 4 + 3) (hk 3 (by norm_num))]
    rw [hm0, hmod _ 1 (by norm_num), hmod _ 2 (by norm_num),
      hmod _ 3 (by norm_num)]
    rfl

/-- Witness for the amended C3 theorem at the integer strength 2 on a 5 × 4
canvas with the uniform colour (10, 20, 30, 255). -/
theorem blur_uniform_preserved_integer_strengths_witness :
    applyGlobalBlur (fun _ _ _ s => s) false (2 : ℚ) 5 4
      (fun _ _ => ⟨10, 20, 30, 255⟩) 0 0 = ⟨10, 20, 30, 255⟩ :=
  blur_uniform_preserved_integer_strengths (fun _ _ _ s => s)
    ⟨10, 20, 30, 255⟩ (by decide) (by decide) (by decide) (by decide) 5 4 2
    (Or.inr ⟨2, by norm_num, by norm_num⟩) 0 0 (by norm_num) (by norm_num)

/-- C6: `exportImage` rescales every absolute-pixel effect parameter —
per-layer blur radius, per-layer glow spread, global blur strength, noise
scale, grain size, texture scale and the halftone dot-size multiplier — by
exactly `exportLongEdge / originalLongEdge`, while the metal ridge density is
divided by that factor; at an export long edge of twice the original long
edge the factor is exactly 2 (and hence the density is scaled by 0.5). -/
theorem export_effect_rescaling (comp : GrydComposition)
    (res : ImageResolution) (aspect : AspectKind) :
    ((exportComposition comp res aspect).layers.map
        (fun l => l.effects.blur.radius) =
      comp.layers.map
        (fun l => l.effects.blur.radius * exportScaleFactor comp res aspect)) ∧
    ((exportComposition comp res aspect).layers.map
        (fun l => l.effects.glow.spread) =
      comp.layers.map
        (fun l => l.effects.glow.spread * exportScaleFactor comp res aspect)) ∧
    (exportComposition comp res aspect).globalEffects.blur.strength =
      comp.globalEffects.blur.strength * exportScaleFactor comp res aspect ∧
    (exportComposition comp res aspect).globalEffects.noise.scale =
      comp.globalEffects.noise.scale * exportScaleFactor comp res aspect ∧
    (exportComposition comp res aspect).globalEffects.grain.size =
      comp.globalEffects.grain.size * exportScaleFactor comp res aspect ∧
    (exportComposition comp res aspect).globalEffects.texture.scale =
      comp.globalEffects.texture.scale * exportScaleFactor comp res aspect ∧
    (exportComposition comp res aspect).globalEffects.halftone.dotSizeMultiplier =
      comp.globalEffects.halftone.dotSizeMultiplier *
        exportScaleFactor comp res aspect ∧
    (exportComposition comp res aspect).globalEffects.metal.density =
      comp.globalEffects.metal.density / exportScaleFactor comp res aspect ∧
    (0 < originalLongEdge comp →
      exportLongEdge res aspect = 2 * originalLongEdge comp →
      exportScaleFactor comp res aspect = 2) := by
  refine ⟨?_, ?_, rfl, rfl, rfl, rfl, rfl, rfl, ?_⟩
  · rw [show (exportComposition comp res aspect).layers =
      comp.layers.map (scaleLayerForExport
        (exportScaleFactor comp res aspect)) from rfl, List.map_map]
    rfl
  · rw [show (exportComposition comp res aspect).layers =
      comp.layers.map (scaleLayerForExport
        (exportScaleFactor comp res aspect)) from rfl, List.map_map]
    rfl
  · intro h0 h2
    unfold exportScaleFactor
    rw [h2]
    field_simp

/-- Witness for C6: a 1024×1024 preview exported at the 2k (2048-long-edge)
square preset doubles the long edge, so the scale factor is exactly 2 and the
concrete effect fields scale by 2 (density by 1/2). -/
def ceExportComp : GrydComposition :=
  { id := "export-w", version := 1,
    canvas := ⟨1024, 1024, "#0a0a0a"⟩,
    layers := [],
    globalEffects :=
      { blur := ⟨true, 30⟩, grain := ⟨false, 1/10, 1⟩,
        noise := ⟨false, 3/10, 50, .perlin⟩,
        halftone := ⟨false, 1/2, ceSourceA, ceSourceB, .overlay, 1, 1/2, 3/10,
          1/2⟩,
        metal := ⟨false, 1/2, ⟨3/5, .softDiagonal⟩, 4/5, 100, 0, 1/2,
          .overlay⟩,
        texture := ⟨false, "frosted_glass_smooth_001", 1/2, .overlay, 1⟩ } }

theorem export_effect_rescaling_witness :
    exportScaleFactor ceExportComp .k2 .square = 2 :=
  (export_effect_rescaling ceExportComp .k2 .square).2.2.2.2.2.2.2.2
    (by norm_num [originalLongEdge, ceExportComp])
    (by norm_num [exportLongEdge, exportCanvasDims, resolutionSize,
      aspectDims, originalLongEdge, ceExportComp, jsRound])

/-- C10: for positive requested dimensions and a positive system device pixel
ratio, `IOSRenderer.resize` leaves both the visible canvas and the offscreen
compositing buffer within 2048 physical pixels on either side; the effective
device pixel ratio is `min(systemDpr, 2)`, hence at most 2; and when the 2048
clamp engages the result is the exact-aspect-ratio point floored: the larger
side becomes 2048 and the other becomes `⌊2048 · short/long⌋` of the
pre-clamp physical dimensions (so the requested aspect ratio is preserved up
to the integer floor). -/
theorem ios_resize_constrained (cssW cssH systemDpr : ℚ)
    (hw : 0 < cssW) (hh : 0 < cssH) (hd : 0 < systemDpr) :
    ((iosResize cssW cssH systemDpr).canvasWidth ≤ 2048 ∧
      (iosResize cssW cssH systemDpr).canvasHeight ≤ 2048 ∧
      (iosResize cssW cssH systemDpr).offscreenWidth ≤ 2048 ∧
      (iosResize cssW cssH systemDpr).offscreenHeight ≤ 2048) ∧
    ((getConstrainedDimensions cssW cssH systemDpr).dpr = min systemDpr 2 ∧
      (getConstrainedDimensions cssW cssH systemDpr).dpr ≤ 2) ∧
    ((2048 < jsFloor (cssW * min systemDpr 2) ∨
        2048 < jsFloor (cssH * min systemDpr 2)) →
      (jsFloor (cssH * min systemDpr 2) < jsFloor (cssW * min systemDpr 2) →
        (getConstrainedDimensions cssW cssH systemDpr).width = 2048 ∧
        (getConstrainedDimensions cssW cssH systemDpr).height =
          jsFloor ((2048 * (jsFloor (cssH * min systemDpr 2) : ℚ)) /
            (jsFloor (cssW * min systemDpr 2) : ℚ))) ∧
      (¬ jsFloor (cssH * min systemDpr 2) < jsFloor (cssW * min systemDpr 2) →
        (getConstrainedDimensions cssW cssH systemDpr).height = 2048 ∧
        (getConstrainedDimensions cssW cssH systemDpr).width =
          jsFloor ((2048 * (jsFloor (cssW * min systemDpr 2) : ℚ)) /
            (jsFloor (cssH * min systemDpr 2) : ℚ)))) := by
  have hdprpos : 0 < min systemDpr MAX_IOS_DPR := by
    have : (0 : ℚ) < MAX_IOS_DPR := by norm_num [MAX_IOS_DPR]
    exact lt_min hd this
  set w0 := jsFloor (cssW * min systemDpr MAX_IOS_DPR) with hw0def
  set h0 := jsFloor (cssH * min systemDpr MAX_IOS_DPR) with hh0def
  have hw0nn : 0 ≤ w0 := Int.floor_nonneg.mpr (le_of_lt (mul_pos hw hdprpos))
  have hh0nn : 0 ≤ h0 := Int.floor_nonneg.mpr (le_of_lt (mul_pos hh hdprpos))
  have hmax : MAX_IOS_DIMENSION = 2048 := rfl
  have hpair : ((getConstrainedDimensions cssW cssH systemDpr).width,
      (getConstrainedDimensions cssW cssH systemDpr).height) =
      if w0 > MAX_IOS_DIMENSION ∨ h0 > MAX_IOS_DIMENSION then
        if w0 > h0 then
          if w0 > MAX_IOS_DIMENSION then
            (MAX_IOS_DIMENSION,
              jsFloor ((MAX_IOS_DIMENSION : ℚ) / ((w0 : ℚ) / (h0 : ℚ))))
          else (w0, h0)
        else
          if h0 > MAX_IOS_DIMENSION then
            (jsFloor ((MAX_IOS_DIMENSION : ℚ) * ((w0 : ℚ) / (h0 : ℚ))),
              MAX_IOS_DIMENSION)
          else (w0, h0)
      else (w0, h0) := rfl
  have hdiv1 : (MAX_IOS_DIMENSION : ℚ) / ((w0 : ℚ) / (h0 : ℚ)) =
      2048 * (h0 : ℚ) / (w0 : ℚ) := by
    rw [hmax, div_div_eq_mul_div]
    push_cast
    ring_nf
  have hdiv2 : (MAX_IOS_DIMENSION : ℚ) * ((w0 : ℚ) / (h0 : ℚ)) =
      2048 * (w0 : ℚ) / (h0 : ℚ) := by
    rw [hmax, mul_div_assoc]
    push_cast
    ring_nf
  -- the clamped width/height pair, fully case-analysed
  have hWH : ((getConstrainedDimensions cssW cssH systemDpr).width ≤ 2048 ∧
      (getConstrainedDimensions cssW cssH systemDpr).height ≤ 2048) ∧
      ((2048 < w0 ∨ 2048 < h0) →
        (h0 < w0 →
          (getConstrainedDimensions cssW cssH systemDpr).width = 2048 ∧
          (getConstrainedDimensions cssW cssH systemDpr).height =
            jsFloor (2048 * (h0 : ℚ) / (w0 : ℚ))) ∧
        (¬ h0 < w0 →
          (getConstrainedDimensions cssW cssH systemDpr).height = 2048 ∧
          (getConstrainedDimensions cssW cssH systemDpr).width =
            jsFloor (2048 * (w0 : ℚ) / (h0 : ℚ)))) := by
    by_cases hcl : w0 > MAX_IOS_DIMENSION ∨ h0 > MAX_IOS_DIMENSION
    · by_cases hwh : w0 > h0
      · have hw2048 : w0 > MAX_IOS_DIMENSION := by
          rcases hcl with hc | hc
          · exact hc
          · omega
        have hpair2 : ((getConstrainedDimensions cssW cssH systemDpr).width,
            (getConstrainedDimensions cssW cssH systemDpr).height) =
            (MAX_IOS_DIMENSION,
              jsFloor ((MAX_IOS_DIMENSION : ℚ) / ((w0 : ℚ) / (h0 : ℚ)))) := by
          rw [hpair, if_pos hcl, if_pos hwh, if_pos hw2048]
        have hwEq : (getConstrainedDimensions cssW cssH systemDpr).width =
            MAX_IOS_DIMENSION := congrArg Prod.fst hpair2
        have hhEq : (getConstrainedDimensions cssW cssH systemDpr).height =
            jsFloor ((MAX_IOS_DIMENSION : ℚ) / ((w0 : ℚ) / (h0 : ℚ))) :=
          congrArg Prod.snd hpair2
        have hw0pos : (0 : ℚ) < (w0 : ℚ) := by
          have : (0 : ℤ) < w0 := by omega
          exact_mod_cast this
        have hqle : 2048 * (h0 : ℚ) / (w0 : ℚ) ≤ 2048 := by
          rw [div_le_iff₀ hw0pos]
          have : (h0 : ℚ) ≤ (w0 : ℚ) := by exact_mod_cast le_of_lt hwh
          nlinarith
        have hhle : (getConstrainedDimensions cssW cssH systemDpr).height ≤
            2048 := by
          rw [hhEq, hdiv1]
          calc jsFloor (2048 * (h0 : ℚ) / (w0 : ℚ)) ≤ jsFloor (2048 : ℚ) :=
                Int.floor_le_floor hqle
            _ = 2048 := by norm_num [jsFloor]
        refine ⟨⟨by rw [hwEq, hmax], hhle⟩, fun _ => ⟨fun _ => ?_, fun hcon => ?_⟩⟩
        · exact ⟨by rw [hwEq, hmax], by rw [hhEq, hdiv1]⟩
        · exact absurd hwh hcon
      · have hh2048 : h0 > MAX_IOS_DIMENSION := by
          rcases hcl with hc | hc
          · omega
          · exact hc
        have hpair2 : ((getConstrainedDimensions cssW cssH systemDpr).width,
            (getConstrainedDimensions cssW cssH systemDpr).height) =
            (jsFloor ((MAX_IOS_DIMENSION : ℚ) * ((w0 : ℚ) / (h0 : ℚ))),
              MAX_IOS_DIMENSION) := by
          rw [hpair, if_pos hcl, if_neg hwh, if_pos hh2048]
        have hwEq : (getConstrainedDimensions cssW cssH systemDpr).width =
            jsFloor ((MAX_IOS_DIMENSION : ℚ) * ((w0 : ℚ) / (h0 : ℚ))) :=
          congrArg Prod.fst hpair2
        have hhEq : (getConstrainedDimensions cssW cssH systemDpr).height =
            MAX_IOS_DIMENSION := congrArg Prod.snd hpair2
        have hh0pos : (0 : ℚ) < (h0 : ℚ) := by
          have : (0 : ℤ) < h0 := by omega
          exact_mod_cast this
        have hqle : 2048 * (w0 : ℚ) / (h0 : ℚ) ≤ 2048 := by
          rw [div_le_iff₀ hh0pos]
          have : (w0 : ℚ) ≤ (h0 : ℚ) := by
            have : w0 ≤ h0 := by omega
            exact_mod_cast this
          nlinarith
        have hwle : (getConstrainedDimensions cssW cssH systemDpr).width ≤
            2048 := by
          rw [hwEq, hdiv2]
          calc jsFloor (2048 * (w0 : ℚ) / (h0 : ℚ)) ≤ jsFloor (2048 : ℚ) :=
                Int.floor_le_floor hqle
            _ = 2048 := by norm_num [jsFloor]
        refine ⟨⟨hwle, by rw [hhEq, hmax]⟩, fun _ => ⟨fun hcon => ?_, fun _ => ?_⟩⟩
        · exact absurd hcon hwh
        · exact ⟨by rw [hhEq, hmax], by rw [hwEq, hdiv2]⟩
    · have hpair2 : ((getConstrainedDimensions cssW cssH systemDpr).width,
          (getConstrainedDimensions cssW cssH systemDpr).height) = (w0, h0) := by
        rw [hpair, if_neg hcl]
      push_neg at hcl
      rw [hmax] at hcl
      refine ⟨⟨?_, ?_⟩, fun hcon => ?_⟩
      · have hwEq : (getConstrainedDimensions cssW cssH systemDpr).width =
            w0 := congrArg Prod.fst hpair2
        rw [hwEq]
        exact hcl.1
      · have hhEq : (getConstrainedDimensions cssW cssH systemDpr).height =
            h0 := congrArg Prod.snd hpair2
        rw [hhEq]
        exact hcl.2
      · rcases hcon with hc | hc
        · omega
        · omega
  refine ⟨⟨?_, ?_, ?_, ?_⟩, ⟨rfl, min_le_right _ _⟩, hWH.2⟩
  · exact hWH.1.1
  · exact hWH.1.2
  · exact hWH.1.1
  · exact hWH.1.2

/-- Witness for C10: a 3000×1000 CSS container at system DPR 3 is clamped to
DPR 2, pre-clamp physical 6000×2000, post-clamp 2048×682 on both buffers. -/
theorem ios_resize_constrained_witness :
    (iosResize 3000 1000 3).canvasWidth ≤ 2048 ∧
    (iosResize 3000 1000 3).canvasHeight ≤ 2048 ∧
    (iosResize 3000 1000 3).offscreenWidth ≤ 2048 ∧
    (iosResize 3000 1000 3).offscreenHeight ≤ 2048 :=
  (ios_resize_constrained 3000 1000 3 (by norm_num) (by norm_num)
    (by norm_num)).1

/-! ### Trace lemmas shared by the drawFrame theorems -/

theorem effectTagsOf_append (a b : List RenderEvent) :
    effectTagsOf (a ++ b) = effectTagsOf a ++ effectTagsOf b :=
  List.filterMap_append a b _

/-- Lemma: `createGradient` adds the stop list whatever the gradient type is. -/
theorem createGradient_eq (layer : GradientLayer) :
    createGradient layer = addColorStops layer.colors := by
  unfold createGradient
  cases layer.type <;> rfl

/-- A successful `renderLayer` emits only layer/glow fills — never a global
effect application. -/
theorem renderLayerEvents_tags (target : Target) (layer : GradientLayer)
    (evs : List RenderEvent) (h : renderLayerEvents target layer = .ok evs) :
    effectTagsOf evs = [] := by
  unfold renderLayerEvents at h
  split at h
  · cases h
    rfl
  · split at h
    · cases h
    · cases h
      split <;> rfl

/-- A successful `renderLayerToContext` emits only layer fills on its target,
and nothing else. -/
theorem renderLayerToContextEvents_ok (target : Target)
    (layer : GradientLayer) (evs : List RenderEvent)
    (h : renderLayerToContextEvents target layer = .ok evs) :
    evs = [] ∨ evs = [RenderEvent.layerFill target layer.id] := by
  unfold renderLayerToContextEvents at h
  split at h
  · cases h
    exact Or.inl rfl
  · split at h
    · cases h
    · cases h
      exact Or.inr rfl

theorem renderLayerToContextEvents_tags (target : Target)
    (layer : GradientLayer) (evs : List RenderEvent)
    (h : renderLayerToContextEvents target layer = .ok evs) :
    effectTagsOf evs = [] := by
  rcases renderLayerToContextEvents_ok target layer evs h with h1 | h1 <;>
    rw [h1] <;> rfl

/-- The layer loop emits no global-effect applications. -/
theorem renderVisibleLayers_tags
    (renderOne : GradientLayer → Except RenderError (List RenderEvent))
    (hro : ∀ layer evs, renderOne layer = .ok evs → effectTagsOf evs = []) :
    ∀ (layers : List GradientLayer) (evs : List RenderEvent),
      renderVisibleLayers renderOne layers = .ok evs → effectTagsOf evs = []
  | [], evs, h => by
      cases h
      rfl
  | layer :: rest, evs, h => by
      unfold renderVisibleLayers at h
      split at h
      · cases h
      · rename_i evsHead hHead
        split at h
        · cases h
        · rename_i evsRest hRest
          cases h
          rw [effectTagsOf_append,
            renderVisibleLayers_tags renderOne hro rest evsRest hRest]
          rw [List.append_nil]
          split at hHead
          · exact hro layer evsHead hHead
          · cases hHead
            rfl

/-- The effect tags of the primary renderer's global-effect block are the
canonical order filtered by the enabled flags. -/
theorem canvasGlobalEffectEvents_tags (ge : GlobalEffects) :
    effectTagsOf (canvasGlobalEffectEvents ge) =
      canonicalEffectOrder.filter (effectEnabled ge) := by
  unfold canvasGlobalEffectEvents canonicalEffectOrder
  cases hb : ge.blur.enabled <;> cases hg : ge.grain.enabled <;>
    cases hn : ge.noise.enabled <;> cases hh : ge.halftone.enabled <;>
    cases hm : ge.metal.enabled <;> cases ht : ge.texture.enabled <;>
    simp [effectTagsOf, effectEnabled, hb, hg, hn, hh, hm, ht, List.filter]

/-- The effect tags of the iOS blur-or-copy step plus effect tail are the
canonical order filtered by the iOS application conditions. -/
theorem iosEffectEvents_tags (ge : GlobalEffects) :
    effectTagsOf (iosBlurStep ge ++ iosTailEffectEvents ge) =
      canonicalEffectOrder.filter (iosEffectApplies ge) := by
  unfold iosBlurStep iosTailEffectEvents canonicalEffectOrder
  by_cases hblur : ge.blur.enabled ∧ 0 < ge.blur.strength
  · cases hg : ge.grain.enabled <;> cases hn : ge.noise.enabled <;>
      cases hh : ge.halftone.enabled <;> cases hm : ge.metal.enabled <;>
      cases ht : ge.texture.enabled <;>
      simp [effectTagsOf, iosEffectApplies, effectEnabled, hblur.1, hblur.2,
        hg, hn, hh, hm, ht, List.filter, if_pos hblur]
  · have hba : (ge.blur.enabled && decide (0 < ge.blur.strength)) = false := by
      cases hE : ge.blur.enabled
      · rfl
      · simp only [Bool.true_and]
        exact decide_eq_false fun hs => hblur ⟨hE, hs⟩
    cases hg : ge.grain.enabled <;> cases hn : ge.noise.enabled <;>
      cases hh : ge.halftone.enabled <;> cases hm : ge.metal.enabled <;>
      cases ht : ge.texture.enabled <;>
      simp [effectTagsOf, iosEffectApplies, effectEnabled,
        hg, hn, hh, hm, ht, List.filter, if_neg hblur, hba]

/-- The predicate `iosEffectApplies` only holds for enabled effects. -/
theorem iosEffectApplies_imp_enabled (ge : GlobalEffects) (t : EffectTag)
    (h : iosEffectApplies ge t = true) : effectEnabled ge t = true := by
  cases t <;> simp_all [iosEffectApplies, effectEnabled]

/-- C1: in every successfully rendered frame, both renderers apply the global
effects in the fixed order blur, grain, noise, halftone, metal, texture — the
trace of effect applications is the canonical order filtered by the effects
that run (for the primary renderer exactly the enabled ones; for the iOS
renderer blur additionally requires positive strength) — and an effect whose
`enabled` flag is false never has its application function invoked. -/
theorem global_effects_fixed_order (comp : GrydComposition) :
    (∀ tr, drawFrameCanvas comp = .ok tr →
      effectTagsOf tr =
        canonicalEffectOrder.filter (effectEnabled comp.globalEffects)) ∧
    (∀ tr, drawFrameIOS comp = .ok tr →
      effectTagsOf tr =
        canonicalEffectOrder.filter (iosEffectApplies comp.globalEffects)) ∧
    (∀ t, effectEnabled comp.globalEffects t = false →
      (∀ tr, drawFrameCanvas comp = .ok tr → t ∉ effectTagsOf tr) ∧
      (∀ tr, drawFrameIOS comp = .ok tr → t ∉ effectTagsOf tr)) := by
  have hcanvas : ∀ tr, drawFrameCanvas comp = .ok tr →
      effectTagsOf tr =
        canonicalEffectOrder.filter (effectEnabled comp.globalEffects) := by
    intro tr h
    unfold drawFrameCanvas at h
    split at h
    · cases h
    · rename_i layerEvs hLayers
      cases h
      show effectTagsOf (RenderEvent.fillBackground .visible ::
        (layerEvs ++ canvasGlobalEffectEvents comp.globalEffects)) = _
      have h1 : effectTagsOf (RenderEvent.fillBackground .visible ::
          (layerEvs ++ canvasGlobalEffectEvents comp.globalEffects)) =
          effectTagsOf (layerEvs ++
            canvasGlobalEffectEvents comp.globalEffects) := rfl
      rw [h1, effectTagsOf_append,
        renderVisibleLayers_tags _ (renderLayerEvents_tags .visible) _ _
          hLayers,
        List.nil_append, canvasGlobalEffectEvents_tags]
  have hios : ∀ tr, drawFrameIOS comp = .ok tr →
      effectTagsOf tr =
        canonicalEffectOrder.filter (iosEffectApplies comp.globalEffects) := by
    intro tr h
    unfold drawFrameIOS at h
    split at h
    · cases h
    · rename_i directEvs hDirect
      split at h
      · cases h
      · rename_i offscreenEvs hOff
        cases h
        have h1 : effectTagsOf (RenderEvent.fillBackground .visible ::
            directEvs ++ RenderEvent.fillBackground .offscreen ::
            offscreenEvs ++ iosBlurStep comp.globalEffects ++
            iosTailEffectEvents comp.globalEffects) =
            effectTagsOf directEvs ++ (effectTagsOf offscreenEvs ++
              effectTagsOf (iosBlurStep comp.globalEffects ++
                iosTailEffectEvents comp.globalEffects)) := by
          rw [show RenderEvent.fillBackground Target.visible ::
              directEvs ++ RenderEvent.fillBackground .offscreen ::
              offscreenEvs ++ iosBlurStep comp.globalEffects ++
              iosTailEffectEvents comp.globalEffects =
              RenderEvent.fillBackground .visible ::
              (directEvs ++ (RenderEvent.fillBackground .offscreen ::
              (offscreenEvs ++ (iosBlurStep comp.globalEffects ++
              iosTailEffectEvents comp.globalEffects)))) by simp]
          show effectTagsOf (directEvs ++
            (RenderEvent.fillBackground .offscreen ::
              (offscreenEvs ++ (iosBlurStep comp.globalEffects ++
                iosTailEffectEvents comp.globalEffects)))) = _
          rw [effectTagsOf_append]
          show effectTagsOf directEvs ++ effectTagsOf (offscreenEvs ++
            (iosBlurStep comp.globalEffects ++
              iosTailEffectEvents comp.globalEffects)) = _
          rw [effectTagsOf_append]
        rw [h1,
          renderVisibleLayers_tags _ (renderLayerToContextEvents_tags .visible)
            _ _ hDirect,
          renderVisibleLayers_tags _
            (renderLayerToContextEvents_tags .offscreen) _ _ hOff,
          iosEffectEvents_tags]
        rfl
  refine ⟨hcanvas, hios, fun t ht => ⟨fun tr h hmem => ?_, fun tr h hmem => ?_⟩⟩
  · rw [hcanvas tr h] at hmem
    exact absurd ((List.mem_filter.mp hmem).2) (by rw [ht]; simp)
  · rw [hios tr h] at hmem
    have := iosEffectApplies_imp_enabled comp.globalEffects t
      ((List.mem_filter.mp hmem).2)
    rw [ht] at this
    cases this

/-- Witness for C1 on a concrete composition (no layers, only grain and metal
enabled): the primary trace applies exactly grain then metal, the iOS trace
likewise, and the disabled blur is absent. -/
def ceOrderComp : GrydComposition :=
  { id := "order-w", version := 1,
    canvas := ⟨640, 480, "#0a0a0a"⟩,
    layers := [],
    globalEffects :=
      { blur := ⟨false, 30⟩, grain := ⟨true, 1/10, 1⟩,
        noise := ⟨false, 3/10, 50, .perlin⟩,
        halftone := ⟨false, 1/2, ceSourceA, ceSourceB, .overlay, 1, 1/2, 3/10,
          1/2⟩,
        metal := ⟨true, 1/2, ⟨3/5, .softDiagonal⟩, 4/5, 100, 0, 1/2,
          .overlay⟩,
        texture := ⟨false, "frosted_glass_smooth_001", 1/2, .overlay, 1⟩ } }

theorem global_effects_fixed_order_witness :
    effectTagsOf [RenderEvent.fillBackground .visible,
        .applyEffect .grain, .applyEffect .metal] =
      canonicalEffectOrder.filter (effectEnabled ceOrderComp.globalEffects) :=
  (global_effects_fixed_order ceOrderComp).1
    [RenderEvent.fillBackground .visible, .applyEffect .grain,
      .applyEffect .metal] rfl

/-- C4: a layer with fewer than 2 colour stops is skipped without error by
both renderers: the draw trace of a composition whose only layer is such a
layer equals the trace of the background-only composition (so any interpreter
of the traces produces identical surfaces), and both renders succeed. -/
theorem short_stop_list_layer_skipped (comp : GrydComposition)
    (L : GradientLayer) (hL : L.colors.length < 2) :
    drawFrameCanvas { comp with layers := [L] } =
      drawFrameCanvas { comp with layers := [] } ∧
    (∃ tr, drawFrameCanvas { comp with layers := [L] } = .ok tr) ∧
    drawFrameIOS { comp with layers := [L] } =
      drawFrameIOS { comp with layers := [] } ∧
    (∃ tr, drawFrameIOS { comp with layers := [L] } = .ok tr) := by
  have hone : ∀ renderOne, renderOne L = .ok [] →
      renderVisibleLayers renderOne [L] = .ok [] := by
    intro renderOne hro
    unfold renderVisibleLayers
    cases hv : L.visible <;>
      simp [hv, hro, renderVisibleLayers]
  have hskipC : renderLayerEvents Target.visible L = .ok [] := by
    unfold renderLayerEvents
    rw [if_pos hL]
  have hskipI : ∀ target, renderLayerToContextEvents target L = .ok [] := by
    intro target
    unfold renderLayerToContextEvents
    rw [if_pos hL]
  have hC : drawFrameCanvas { comp with layers := [L] } =
      .ok (RenderEvent.fillBackground .visible ::
        canvasGlobalEffectEvents comp.globalEffects) := by
    unfold drawFrameCanvas
    rw [show ({ comp with layers := [L] } : GrydComposition).layers = [L]
      from rfl, hone _ hskipC]
    rfl
  have hI : drawFrameIOS { comp with layers := [L] } =
      .ok (RenderEvent.fillBackground .visible ::
        RenderEvent.fillBackground .offscreen ::
        (iosBlurStep comp.globalEffects ++
          iosTailEffectEvents comp.globalEffects)) := by
    unfold drawFrameIOS
    rw [show ({ comp with layers := [L] } : GrydComposition).layers = [L]
      from rfl, hone _ (hskipI .visible), hone _ (hskipI .offscreen)]
    rfl
  refine ⟨?_, ⟨_, hC⟩, ?_, ⟨_, hI⟩⟩
  · rw [hC]
    rfl
  · rw [hI]
    rfl

/-- Witness for C4 at a concrete composition and a one-stop layer. -/
def ceShortLayer : GradientLayer :=
  { id := "layer-short", name := "Layer 1", type := .radial, visible := true,
    opacity := 1,
    colors := [⟨"stop-1", "#22c55e", 0⟩],
    transform := ⟨0, 0, 1, 0⟩, blendMode := .normal,
    effects := ⟨⟨false, 0⟩, ⟨false, 1/2, 50⟩, ⟨false, 1/2, 20⟩⟩ }

theorem short_stop_list_layer_skipped_witness :
    drawFrameCanvas { ceOrderComp with layers := [ceShortLayer] } =
      drawFrameCanvas { ceOrderComp with layers := [] } :=
  (short_stop_list_layer_skipped ceOrderComp ceShortLayer
    (by norm_num [ceShortLayer])).1

/-! ### Membership lemmas for the iOS two-buffer theorem -/

theorem renderVisibleLayers_mem
    (renderOne : GradientLayer → Except RenderError (List RenderEvent)) :
    ∀ (layers : List GradientLayer) (evs : List RenderEvent),
      renderVisibleLayers renderOne layers = .ok evs →
      ∀ L ∈ layers, L.visible = true →
        ∃ evsL, renderOne L = .ok evsL ∧ ∀ e ∈ evsL, e ∈ evs
  | [], _, h, L, hmem, _ => absurd hmem (List.not_mem_nil L)
  | layer :: rest, evs, h, L, hmem, hvis => by
      unfold renderVisibleLayers at h
      split at h
      · cases h
      · rename_i evsHead hHead
        split at h
        · cases h
        · rename_i evsRest hRest
          cases h
          rcases List.mem_cons.mp hmem with hLeq | hLrest
          · subst hLeq
            rw [if_pos hvis] at hHead
            exact ⟨evsHead, hHead,
              fun e he => List.mem_append_left evsRest he⟩
          · obtain ⟨evsL, hL, hsub⟩ := renderVisibleLayers_mem renderOne rest
              evsRest hRest L hLrest hvis
            exact ⟨evsL, hL,
              fun e he => List.mem_append_right evsHead (hsub e he)⟩

theorem renderVisibleLayers_all
    (renderOne : GradientLayer → Except RenderError (List RenderEvent))
    (P : RenderEvent → Prop)
    (hro : ∀ layer evs, renderOne layer = .ok evs → ∀ e ∈ evs, P e) :
    ∀ (layers : List GradientLayer) (evs : List RenderEvent),
      renderVisibleLayers renderOne layers = .ok evs → ∀ e ∈ evs, P e
  | [], _, h, e, hmem => by
      cases h
      cases hmem
  | layer :: rest, evs, h, e, hmem => by
      unfold renderVisibleLayers at h
      split at h
      · cases h
      · rename_i evsHead hHead
        split at h
        · cases h
        · rename_i evsRest hRest
          cases h
          rcases List.mem_append.mp hmem with he | he
          · split at hHead
            · exact hro layer evsHead hHead e he
            · cases hHead
              cases he
          · exact renderVisibleLayers_all renderOne P hro rest evsRest hRest
              e he

theorem renderLayerToContextEvents_all (target : Target)
    (layer : GradientLayer) (evs : List RenderEvent)
    (h : renderLayerToContextEvents target layer = .ok evs) :
    ∀ e ∈ evs, ∃ id, e = RenderEvent.layerFill target id := by
  rcases renderLayerToContextEvents_ok target layer evs h with h1 | h1 <;>
    subst h1
  · intro e he
    cases he
  · intro e he
    rcases List.mem_singleton.mp he with rfl
    exact ⟨layer.id, rfl⟩

/-- With at least two colour stops and a successfully built gradient, the iOS
layer renderer emits exactly one gradient fill on its target. -/
theorem renderLayerToContextEvents_ok_long (target : Target)
    (layer : GradientLayer) (evs : List RenderEvent)
    (h : renderLayerToContextEvents target layer = .ok evs)
    (h2 : 2 ≤ layer.colors.length) :
    evs = [RenderEvent.layerFill target layer.id] := by
  unfold renderLayerToContextEvents at h
  rw [if_neg (not_lt.mpr h2)] at h
  split at h
  · cases h
  · cases h
    rfl

theorem mem_ite_effect_singleton {c : Prop} [Decidable c] (t : EffectTag)
    (e : RenderEvent)
    (he : e ∈ (if c then [RenderEvent.applyEffect t] else [])) :
    e = .applyEffect t := by
  split at he
  · simpa using he
  · cases he

theorem iosTailEffectEvents_all (ge : GlobalEffects) :
    ∀ e ∈ iosTailEffectEvents ge, ∃ tag, e = RenderEvent.applyEffect tag := by
  intro e he
  unfold iosTailEffectEvents at he
  rcases List.mem_append.mp he with he1 | he1
  · rcases List.mem_append.mp he1 with he2 | he2
    · rcases List.mem_append.mp he2 with he3 | he3
      · rcases List.mem_append.mp he3 with he4 | he4
        · exact ⟨_, mem_ite_effect_singleton _ _ he4⟩
        · exact ⟨_, mem_ite_effect_singleton _ _ he4⟩
      · exact ⟨_, mem_ite_effect_singleton _ _ he3⟩
    · exact ⟨_, mem_ite_effect_singleton _ _ he2⟩
  · exact ⟨_, mem_ite_effect_singleton _ _ he1⟩

/-- The composition used to refute the C7 claim: one visible radial layer
with two in-range colour stops, all global effects disabled. -/
def ceVisibleLayer : GradientLayer :=
  { id := "layer-1", name := "Layer 1", type := .radial, visible := true,
    opacity := 1,
    colors := [⟨"stop-1", "#22c55e", 0⟩, ⟨"stop-2", "#0a0a0a", 1⟩],
    transform := ⟨0, 0, 1, 0⟩, blendMode := .normal,
    effects := ⟨⟨false, 0⟩, ⟨false, 1/2, 50⟩, ⟨false, 1/2, 20⟩⟩ }

def ceLayerComp : GrydComposition :=
  { id := "two-buffer", version := 1,
    canvas := ⟨640, 480, "#0a0a0a"⟩,
    layers := [ceVisibleLayer],
    globalEffects :=
      { blur := ⟨false, 30⟩, grain := ⟨false, 1/10, 1⟩,
        noise := ⟨false, 3/10, 50, .perlin⟩,
        halftone := ⟨false, 1/2, ceSourceA, ceSourceB, .overlay, 1, 1/2, 3/10,
          1/2⟩,
        metal := ⟨false, 1/2, ⟨3/5, .softDiagonal⟩, 4/5, 100, 0, 1/2,
          .overlay⟩,
        texture := ⟨false, "frosted_glass_smooth_001", 1/2, .overlay, 1⟩ } }

/-- C7 counterexample.  In `IOSRenderer.drawFrame` the first layer loop draws
every visible layer directly to the visible surface before the offscreen
pass: the successful trace of a one-layer composition contains a direct
layer fill on the visible surface, contradicting the claim that visible
layers are never drawn to the visible surface directly. -/
theorem ios_layers_drawn_to_visible_counterexample :
    drawFrameIOS ceLayerComp = .ok
      [RenderEvent.fillBackground .visible,
        .layerFill .visible "layer-1",
        .fillBackground .offscreen,
        .layerFill .offscreen "layer-1",
        .copyImage .offscreen .visible] ∧
    RenderEvent.layerFill .visible "layer-1" ∈
      [RenderEvent.fillBackground .visible,
        .layerFill .visible "layer-1",
        .fillBackground .offscreen,
        .layerFill .offscreen "layer-1",
        .copyImage .offscreen .visible] := by
  constructor
  · rfl
  · simp

/-- C7 (amended): in every successful iOS render, each visible layer with at
least two colour stops is drawn twice — once directly to the visible surface
(the redundant first loop) and once to the offscreen buffer; when global blur
is enabled with positive strength the safe blur runs with the offscreen
buffer as source and the visible surface as destination (and no plain copy
occurs), and otherwise the offscreen buffer is copied to the visible surface
unchanged (and no safe blur occurs).  The final visible content therefore
still derives from the offscreen buffer. -/
theorem ios_two_buffer_compositing (comp : GrydComposition)
    (tr : List RenderEvent) (h : drawFrameIOS comp = .ok tr) :
    (∀ L ∈ comp.layers, L.visible = true → 2 ≤ L.colors.length →
      RenderEvent.layerFill .offscreen L.id ∈ tr ∧
      RenderEvent.layerFill .visible L.id ∈ tr) ∧
    (comp.globalEffects.blur.enabled = true ∧
        0 < comp.globalEffects.blur.strength →
      RenderEvent.safeBlur .offscreen .visible ∈ tr ∧
      RenderEvent.copyImage .offscreen .visible ∉ tr) ∧
    (¬ (comp.globalEffects.blur.enabled = true ∧
        0 < comp.globalEffects.blur.strength) →
      RenderEvent.copyImage .offscreen .visible ∈ tr ∧
      RenderEvent.safeBlur .offscreen .visible ∉ tr) := by
  unfold drawFrameIOS at h
  split at h
  · cases h
  · rename_i directEvs hDirect
    split at h
    · cases h
    · rename_i offscreenEvs hOff
      cases h
      have hd_all : ∀ e ∈ directEvs, ∃ id,
          e = RenderEvent.layerFill .visible id :=
        renderVisibleLayers_all _ _
          (renderLayerToContextEvents_all .visible) comp.layers directEvs
          hDirect
      have ho_all : ∀ e ∈ offscreenEvs, ∃ id,
          e = RenderEvent.layerFill .offscreen id :=
        renderVisibleLayers_all _ _
          (renderLayerToContextEvents_all .offscreen) comp.layers offscreenEvs
          hOff
      have htr_mem : ∀ e : RenderEvent,
          e ∈ RenderEvent.fillBackground .visible :: directEvs
            ++ RenderEvent.fillBackground .offscreen :: offscreenEvs
            ++ iosBlurStep comp.globalEffects
            ++ iosTailEffectEvents comp.globalEffects ↔
          (e = RenderEvent.fillBackground .visible ∨ e ∈ directEvs) ∨
          (e = RenderEvent.fillBackground .offscreen ∨ e ∈ offscreenEvs) ∨
          e ∈ iosBlurStep comp.globalEffects ∨
          e ∈ iosTailEffectEvents comp.globalEffects := by
        intro e
        simp [List.mem_append, List.mem_cons, or_assoc]
      refine ⟨fun L hmem hvis h2 => ⟨?_, ?_⟩, fun hblur => ⟨?_, ?_⟩,
        fun hblur => ⟨?_, ?_⟩⟩
      · obtain ⟨evsL, hL, hsub⟩ := renderVisibleLayers_mem _ comp.layers
          offscreenEvs hOff L hmem hvis
        rw [renderLayerToContextEvents_ok_long _ _ _ hL h2] at hsub
        exact (htr_mem _).mpr (Or.inr (Or.inl (Or.inr
          (hsub _ (List.mem_singleton_self _)))))
      · obtain ⟨evsL, hL, hsub⟩ := renderVisibleLayers_mem _ comp.layers
          directEvs hDirect L hmem hvis
        rw [renderLayerToContextEvents_ok_long _ _ _ hL h2] at hsub
        exact (htr_mem _).mpr (Or.inl (Or.inr
          (hsub _ (List.mem_singleton_self _))))
      · refine (htr_mem _).mpr (Or.inr (Or.inr (Or.inl ?_)))
        unfold iosBlurStep
        rw [if_pos hblur]
        exact List.mem_singleton_self _
      · intro hmem
        rcases (htr_mem _).mp hmem with (hc | hc) | (hc | hc) | hc | hc
        · cases hc
        · obtain ⟨id, hid⟩ := hd_all _ hc
          cases hid
        · cases hc
        · obtain ⟨id, hid⟩ := ho_all _ hc
          cases hid
        · unfold iosBlurStep at hc
          rw [if_pos hblur] at hc
          rcases List.mem_singleton.mp hc with h'
          cases h'
        · obtain ⟨tag, htag⟩ := iosTailEffectEvents_all _ _ hc
          cases htag
      · refine (htr_mem _).mpr (Or.inr (Or.inr (Or.inl ?_)))
        unfold iosBlurStep
        rw [if_neg hblur]
        exact List.mem_singleton_self _
      · intro hmem
        rcases (htr_mem _).mp hmem with (hc | hc) | (hc | hc) | hc | hc
        · cases hc
        · obtain ⟨id, hid⟩ := hd_all _ hc
          cases hid
        · cases hc
        · obtain ⟨id, hid⟩ := ho_all _ hc
          cases hid
        · unfold iosBlurStep at hc
          rw [if_neg hblur] at hc
          rcases List.mem_singleton.mp hc with h'
          cases h'
        · obtain ⟨tag, htag⟩ := iosTailEffectEvents_all _ _ hc
          cases htag

/-- Witness for the amended C7 theorem at the concrete one-layer
composition. -/
theorem ios_two_buffer_compositing_witness :
    RenderEvent.layerFill .offscreen "layer-1" ∈
      [RenderEvent.fillBackground .visible,
        .layerFill .visible "layer-1",
        .fillBackground .offscreen,
        .layerFill .offscreen "layer-1",
        .copyImage .offscreen .visible] ∧
    RenderEvent.layerFill .visible "layer-1" ∈
      [RenderEvent.fillBackground .visible,
        .layerFill .visible "layer-1",
        .fillBackground .offscreen,
        .layerFill .offscreen "layer-1",
        .copyImage .offscreen .visible] :=
  (ios_two_buffer_compositing ceLayerComp _ rfl).1
    ceVisibleLayer (List.mem_singleton_self _) rfl
    (by norm_num [ceVisibleLayer])

/-! ### Colour-stop error propagation (C8) -/

theorem addColorStops_error (colors : List GradientColorStop)
    (s : GradientColorStop) (hmem : s ∈ colors)
    (hbad : s.position < 0 ∨ 1 < s.position) :
    addColorStops colors = .error .indexSizeError := by
  induction colors with
  | nil => cases hmem
  | cons c rest ih =>
      unfold addColorStops
      by_cases hc : c.position < 0 ∨ 1 < c.position
      · rw [if_pos hc]
      · rw [if_neg hc]
        rcases List.mem_cons.mp hmem with heq | hmem2
        · subst heq
          exact absurd hbad hc
        · exact ih hmem2

/-- A composition whose single visible layer carries an out-of-range colour
stop makes the primary renderer's frame throw `IndexSizeError` (from
`addColorStop`). -/
theorem drawFrameCanvas_error_of_bad_stop (comp : GrydComposition)
    (L : GradientLayer) (s : GradientColorStop) (hlayers : comp.layers = [L])
    (hvis : L.visible = true) (h2 : ¬ L.colors.length < 2)
    (hmem : s ∈ L.colors) (hbad : s.position < 0 ∨ 1 < s.position) :
    drawFrameCanvas comp = .error .indexSizeError := by
  have hcg : createGradient L = .error .indexSizeError := by
    rw [createGradient_eq]
    exact addColorStops_error L.colors s hmem hbad
  have hre : renderLayerEvents .visible L = .error .indexSizeError := by
    unfold renderLayerEvents
    rw [if_neg h2, hcg]
  have hrv : renderVisibleLayers (renderLayerEvents .visible) [L] =
      .error .indexSizeError := by
    unfold renderVisibleLayers
    rw [if_pos hvis, hre]
  unfold drawFrameCanvas
  rw [hlayers, hrv]

def ceBadStopLayer : GradientLayer :=
  { id := "layer-bad", name := "Layer 1", type := .linear, visible := true,
    opacity := 1,
    colors := [⟨"stop-1", "#22c55e", 0⟩, ⟨"stop-2", "#0a0a0a", 2⟩],
    transform := ⟨0, 0, 1, 0⟩, blendMode := .normal,
    effects := ⟨⟨false, 0⟩, ⟨false, 1/2, 50⟩, ⟨false, 1/2, 20⟩⟩ }

def ceBadStopComp : GrydComposition :=
  { ceLayerComp with id := "bad-stop", layers := [ceBadStopLayer] }

/-- C8 counterexample.  `CanvasRenderer.createGradient` passes colour stops
unsorted and unclamped to `CanvasGradient.addColorStop`, which (per the HTML
canvas standard) throws `IndexSizeError` for offsets outside `[0, 1]`: a
composition with a stop at position 2 makes the render throw, contradicting
the claim that out-of-range stop positions never cause a throw. -/
theorem bad_stop_position_throws_counterexample :
    drawFrameCanvas ceBadStopComp = .error .indexSizeError :=
  drawFrameCanvas_error_of_bad_stop ceBadStopComp ceBadStopLayer
    ⟨"stop-2", "#0a0a0a", 2⟩ rfl rfl (by norm_num [ceBadStopLayer])
    (by norm_num [ceBadStopLayer]) (Or.inr (by norm_num))

/-- C8 (amended): only the static fallback renderer's `CSSLayer` treats stop
positions defensively — it sorts the stops by position (a permutation of the
stored stops, pairwise ordered) before building the gradient string, and
being a pure string construction it cannot throw.  The canvas renderers pass
stops to the platform gradient in stored order without sorting or clamping,
so a composition whose rendered layer contains a stop position outside
`[0, 1]` makes the render throw `IndexSizeError` instead of degrading
gracefully. -/
theorem stop_position_defensiveness (colors : List GradientColorStop) :
    List.Pairwise (fun a b : GradientColorStop =>
      a.position ≤ b.position) (cssSortedStops colors) ∧
    (cssSortedStops colors).Perm colors ∧
    (∀ (comp : GrydComposition) (L : GradientLayer) (s : GradientColorStop),
      comp.layers = [L] → L.visible = true → ¬ L.colors.length < 2 →
      s ∈ L.colors → (s.position < 0 ∨ 1 < s.position) →
      drawFrameCanvas comp = .error .indexSizeError) := by
  refine ⟨?_, ?_, drawFrameCanvas_error_of_bad_stop⟩
  · have h := @List.sorted_mergeSort GradientColorStop
      (fun a b => decide (a.position ≤ b.position))
      (fun a b c h1 h2 => decide_eq_true
        (le_trans (of_decide_eq_true h1) (of_decide_eq_true h2)))
      (fun a b => by
        rcases le_total a.position b.position with h | h <;> simp [h])
      colors
    exact h.imp fun hab => of_decide_eq_true hab
  · exact List.mergeSort_perm colors _

/-- Witness for the amended C8 theorem: a stop at position −1 makes the
primary renderer throw. -/
def ceNegStopLayer : GradientLayer :=
  { ceBadStopLayer with
    id := "layer-neg"
    colors := [⟨"stop-1", "#22c55e", -1⟩, ⟨"stop-2", "#0a0a0a", 1⟩] }

def ceNegStopComp : GrydComposition :=
  { ceLayerComp with id := "neg-stop", layers := [ceNegStopLayer] }

theorem stop_position_defensiveness_witness :
    drawFrameCanvas ceNegStopComp = .error .indexSizeError :=
  (stop_position_defensiveness []).2.2 ceNegStopComp
    ceNegStopLayer ⟨"stop-1", "#22c55e", -1⟩ rfl rfl
    (by norm_num [ceNegStopLayer, ceBadStopLayer])
    (by norm_num [ceNegStopLayer, ceBadStopLayer])
    (Or.inl (by norm_num))

end Gryd
